import Mathlib

/-!
# FeiSync — verification of the cron scheduler and front-end stores

Shallow embedding of the FeiSync TypeScript sources:

* `src/utils/cron.ts` (cron parsing, day matching, next-occurrence search),
* `src/stores/tenantStore.ts` (`reorder`),
* `src/stores/taskStore.ts` (`createTask`, `validateCron`, task normalization),
* `src/stores/transferStore.ts` (`computeSpeed`, `upsert`),
* `src/stores/securityStore.ts` (`randomKey`).

JavaScript numbers are modelled by exact rationals (`ℚ`) plus explicit
`NaN`/`±Infinity` markers; binary-float rounding is not modelled except for
overflow to infinity, which the parser's `Number.isFinite` check observes.
Strings are modelled as `List Char` (wrapped into `String` at the API
boundary), and JS `Date` values as a normalized Gregorian calendar record
with minute arithmetic.
-/

set_option maxRecDepth 40000

namespace FeiSync

/-! ## JS string primitives -/

/-- The whitespace characters recognised by the JS `\s` class / `trim()`
(ASCII whitespace plus NBSP; the rarely used Unicode Zs extras are omitted,
none of them can occur inside a cron field that parses). -/
def jsIsSpace (c : Char) : Bool :=
  c = ' ' || c = '\t' || c = '\n' || c = '\r' || c = Char.ofNat 11 ||
  c = Char.ofNat 12 || c = Char.ofNat 160

/-- JS `String.prototype.trim`. -/
def jsTrimL (s : List Char) : List Char :=
  (((s.dropWhile jsIsSpace).reverse).dropWhile jsIsSpace).reverse

/-- The regex replacement `replace(/\s+/g, ' ')`: every maximal run of
whitespace becomes a single space.  The flag records whether the scan is
currently inside a whitespace run (whose first character already emitted
the replacement space). -/
def collapseAux : Bool → List Char → List Char
  | _, [] => []
  | inRun, c :: cs =>
    if jsIsSpace c then
      if inRun then collapseAux true cs else ' ' :: collapseAux true cs
    else c :: collapseAux false cs

def collapseL (s : List Char) : List Char :=
  collapseAux false s

/-- `expression.trim().replace(/\s+/g, ' ')` on character lists. -/
def normalizeL (s : List Char) : List Char :=
  collapseL (jsTrimL s)

/-- JS `String.prototype.split` with a single-character separator. -/
def splitOnC (sep : Char) : List Char → List (List Char)
  | [] => [[]]
  | c :: cs =>
    if c = sep then [] :: splitOnC sep cs
    else
      match splitOnC sep cs with
      | h :: t => (c :: h) :: t
      | [] => [[c]]

/-- ASCII lower-casing, as JS `toLowerCase` acts on the alias strings. -/
def jsToLower (c : Char) : Char :=
  if 'A' ≤ c ∧ c ≤ 'Z' then Char.ofNat (c.toNat + 32) else c

/-! ## JS numbers

`JSNum` is the value space of the JS `Number(string)` coercion relevant to
the cron parser: an exact rational, or one of the special values. -/

inductive JSNum where
  | nan : JSNum
  | inf : JSNum
  | ninf : JSNum
  | num : ℚ → JSNum
deriving DecidableEq, Repr

/-- `Number.isFinite`. -/
def JSNum.isFinite : JSNum → Bool
  | .num _ => true
  | _ => false

/-! Batteries marks `Rat.add`, `Rat.sub`, `Rat.mul` and `Rat.inv`
`@[irreducible]`, which blocks evaluation of concrete runs inside `decide`.
The wrappers below compute the same rationals through the reducible
`Rat.divInt`; the `…_eq` lemmas identify them with the standard operations,
and all reasoning happens on the standard side. -/

def qAdd (a b : ℚ) : ℚ := Rat.divInt (a.num * b.den + b.num * a.den) (a.den * b.den)

def qSub (a b : ℚ) : ℚ := Rat.divInt (a.num * b.den - b.num * a.den) (a.den * b.den)

def qMul (a b : ℚ) : ℚ := Rat.divInt (a.num * b.num) (a.den * b.den)

def qDiv (a b : ℚ) : ℚ := Rat.divInt (a.num * b.den) (a.den * b.num)

def isDigit (c : Char) : Bool := '0' ≤ c && c ≤ '9'

def digitVal (c : Char) : ℕ := c.toNat - '0'.toNat

def isHexDigit (c : Char) : Bool :=
  isDigit c || ('a' ≤ c && c ≤ 'f') || ('A' ≤ c && c ≤ 'F')

def hexVal (c : Char) : ℕ :=
  if isDigit c then digitVal c
  else if 'a' ≤ c && c ≤ 'f' then c.toNat - 'a'.toNat + 10
  else c.toNat - 'A'.toNat + 10

def digitsToNat (base : ℕ) (val : Char → ℕ) (ds : List Char) : ℕ :=
  ds.foldl (fun acc c => acc * base + val c) 0

/-- Doubles at or above this threshold round to `Infinity`
(`2^1024 - 2^970`, the midpoint above the largest finite double).
Written with `Nat.pow` so that concrete runs reduce in the kernel. -/
def jsOverflow : ℚ := ((Nat.pow 2 1024 - Nat.pow 2 970 : ℕ) : ℚ)

/-- Map an exact rational onto the JS number line, observing overflow. -/
def ratToJS (q : ℚ) : JSNum :=
  if q ≥ jsOverflow then .inf
  else if q ≤ -jsOverflow then .ninf
  else .num q

/-- Decimal literal body (after the optional sign): `DecimalDigits . DecimalDigits? Exponent?`,
`. DecimalDigits Exponent?` or `DecimalDigits Exponent?`. Returns `none` when
the characters are not exactly such a literal. -/
def parseDecimalBody (s : List Char) : Option ℚ :=
  let intPart := s.takeWhile isDigit
  let rest1 := s.dropWhile isDigit
  let (fracPart, rest2) :=
    match rest1 with
    | '.' :: r => (r.takeWhile isDigit, r.dropWhile isDigit)
    | _ => ([], rest1)
  if intPart.isEmpty ∧ fracPart.isEmpty then none
  else
    let mant : ℚ :=
      qAdd (digitsToNat 10 digitVal intPart : ℚ)
        (qDiv (digitsToNat 10 digitVal fracPart : ℚ)
          ((Nat.pow 10 fracPart.length : ℕ) : ℚ))
    match rest2 with
    | [] => some mant
    | e :: r =>
      if e = 'e' ∨ e = 'E' then
        let (esign, edigits) :=
          match r with
          | '+' :: r' => ((1 : Int), r')
          | '-' :: r' => ((-1 : Int), r')
          | _ => ((1 : Int), r)
        if edigits.isEmpty ∨ edigits.any (fun c => !isDigit c) then none
        else
          let ex := digitsToNat 10 digitVal edigits
          if esign = 1 then some (qMul mant ((Nat.pow 10 ex : ℕ) : ℚ))
          else some (qDiv mant ((Nat.pow 10 ex : ℕ) : ℚ))
      else none

/-- JS `Number(string)` restricted to the outcomes the cron parser can
observe: `NaN`, `±Infinity` or an exact rational.  Implements the
`StringNumericLiteral` grammar: surrounding whitespace, empty string is `0`,
signed decimal (with optional fraction and exponent), `Infinity`, and the
unsigned `0x`/`0X` hex, `0o`/`0O` octal and `0b`/`0B` binary forms. -/
def jsNumber (s : List Char) : JSNum :=
  let t := jsTrimL s
  match t with
  | [] => .num 0
  | '0' :: b :: rest =>
    if b = 'x' ∨ b = 'X' then
      if rest ≠ [] ∧ rest.all isHexDigit then ratToJS (digitsToNat 16 hexVal rest : ℚ)
      else .nan
    else if b = 'o' ∨ b = 'O' then
      if rest ≠ [] ∧ rest.all (fun c => '0' ≤ c && c ≤ '7') then
        ratToJS (digitsToNat 8 digitVal rest : ℚ)
      else .nan
    else if b = 'b' ∨ b = 'B' then
      if rest ≠ [] ∧ rest.all (fun c => c = '0' ∨ c = '1') then
        ratToJS (digitsToNat 2 digitVal rest : ℚ)
      else .nan
    else
      match parseDecimalBody t with
      | some q => ratToJS q
      | none => .nan
  | _ =>
    let (neg, body) :=
      match t with
      | '+' :: r => (false, r)
      | '-' :: r => (true, r)
      | _ => (false, t)
    if body = "Infinity".data then (if neg then .ninf else .inf)
    else
      match parseDecimalBody body with
      | some q => ratToJS (if neg then -q else q)
      | none => .nan

/-- Decidable equality for `Except`, used to evaluate concrete runs. -/
def exceptDecEq {ε α : Type} [DecidableEq ε] [DecidableEq α] :
    DecidableEq (Except ε α)
  | .error e₁, .error e₂ =>
    if h : e₁ = e₂ then isTrue (by rw [h])
    else isFalse (by intro hc; cases hc; exact h rfl)
  | .error _, .ok _ => isFalse (by intro hc; cases hc)
  | .ok _, .error _ => isFalse (by intro hc; cases hc)
  | .ok a₁, .ok a₂ =>
    if h : a₁ = a₂ then isTrue (by rw [h])
    else isFalse (by intro hc; cases hc; exact h rfl)

instance {ε α : Type} [DecidableEq ε] [DecidableEq α] : DecidableEq (Except ε α) :=
  exceptDecEq

/-! ## Cron expression parsing (`src/utils/cron.ts`) -/

/-- `normalizeCronExpression` / the internal `normalize` helper. -/
def normalizeCronExpression (expression : String) : String :=
  ⟨normalizeL expression.data⟩

/-- A parsed cron field.  The TS `CronFieldSet` keeps the sorted `values`
array and a `valueSet : Set<number>` with the same elements; the set is
represented here by membership in the (duplicate-free) `values` list. -/
structure CronFieldSet where
  wildcard : Bool
  values : List JSNum
deriving DecidableEq, Repr

structure ParsedCron where
  source : String
  minutes : CronFieldSet
  hours : CronFieldSet
  daysOfMonth : CronFieldSet
  months : CronFieldSet
  daysOfWeek : CronFieldSet
deriving DecidableEq, Repr

/-- Alias dictionaries are keyed by lower-case strings. -/
abbrev AliasDict := List (List Char × ℚ)

def MONTH_ALIASES : AliasDict :=
  [("jan".data, 1), ("feb".data, 2), ("mar".data, 3), ("apr".data, 4),
   ("may".data, 5), ("jun".data, 6), ("jul".data, 7), ("aug".data, 8),
   ("sep".data, 9), ("oct".data, 10), ("nov".data, 11), ("dec".data, 12)]

def WEEK_ALIASES : AliasDict :=
  [("sun".data, 0), ("mon".data, 1), ("tue".data, 2), ("wed".data, 3),
   ("thu".data, 4), ("fri".data, 5), ("sat".data, 6)]

/-- The property names of `Object.prototype`.  The alias dictionaries are
plain object literals, so the `lowered in dict` test in `parseAlias` also
finds these inherited members, and `dict[lowered]` then returns the member
itself — a function, or the prototype object for `__proto__` — rather
than a number.  (Only the all-lowercase names `constructor` and
`__proto__` are reachable, since the token is lower-cased first.) -/
def OBJECT_PROTOTYPE_KEYS : List (List Char) :=
  ["constructor".data, "hasOwnProperty".data, "isPrototypeOf".data,
   "propertyIsEnumerable".data, "toLocaleString".data, "toString".data,
   "valueOf".data, "__defineGetter__".data, "__defineSetter__".data,
   "__lookupGetter__".data, "__lookupSetter__".data, "__proto__".data]

/-- The `range` helper: `for (let value = start; value <= end; value += step)`.
Every call site validates `step > 0`, under which the loop visits exactly
`⌊(end - start)/step⌋ + 1` values when `start ≤ end` and none otherwise;
that closed form is used here (for `step ≤ 0`, unreachable, we return `[]`). -/
def rangeQ (start stop step : ℚ) : List ℚ :=
  if 0 < step ∧ start ≤ stop then
    (List.range ((Rat.floor (qDiv (qSub stop start) step)).toNat + 1)).map
      (fun i => qAdd start (qMul (i : ℚ) step))
  else []

/-- `clamp(value, min, max) = Math.min(max, Math.max(min, value))` on the JS
number line.  `±Infinity` clamps to the corresponding (finite) bound, and
`NaN` propagates: `Math.max` and `Math.min` return `NaN` as soon as an
argument coerces to `NaN` — which the inherited-member values returned by
`parseAlias` do. -/
def clampJS (v : JSNum) (lo hi : ℚ) : JSNum :=
  match v with
  | .num q => .num (min hi (max lo q))
  | .inf => .num hi -- Math.max(lo, +inf) = +inf and Math.min(hi, +inf) = hi
  | .ninf => .num (min hi lo)
  | .nan => .nan

/-- The JS `<` relational comparison on numbers: any comparison involving
`NaN` is false. -/
def jsLtJ : JSNum → JSNum → Bool
  | .nan, _ => false
  | _, .nan => false
  | .num a, .num b => decide (a < b)
  | .inf, _ => false
  | .num _, .inf => true
  | .ninf, .inf => true
  | .ninf, .num _ => true
  | .ninf, .ninf => false
  | .num _, .ninf => false

/-- `parseAlias`: dictionary test with the JS `in` operator on the
lower-cased token, else `Number(value)` (throwing on `NaN`), with
day-of-week `7 → 0` wrapping.  `in` walks the prototype chain of the plain
object literal, so besides the own keys it also finds the inherited
`Object.prototype` members; for those `dict[lowered]` returns the member
itself, a non-number.  Every downstream use of the returned value passes
through the numeric coercion inside `clamp`, which yields `NaN`, so the
value is recorded as `.nan` here. -/
def parseAlias (value : List Char) (dict : Option AliasDict) (allowWrap : Bool) :
    Except String JSNum :=
  let lowered := value.map jsToLower
  match dict with
  | some d =>
    match d.find? (fun kv => kv.1 = lowered) with
    | some kv => .ok (.num kv.2)
    | none =>
      if lowered ∈ OBJECT_PROTOTYPE_KEYS then .ok .nan
      else parseAliasNum value allowWrap
  | none => parseAliasNum value allowWrap
where
  parseAliasNum (value : List Char) (allowWrap : Bool) : Except String JSNum :=
    match jsNumber value with
    | .nan => .error "无法解析"
    | parsed =>
      if allowWrap ∧ parsed = .num 7 then .ok (.num 0) else .ok parsed

/-- `Number.isFinite(step) && step > 0`, the validity check on a step. -/
def stepPositive : JSNum → Bool
  | .num q => decide (0 < q)
  | _ => false

/-- `const [rangePartRaw, stepPartRaw] = item.split('/');
const step = stepPartRaw ? Number(stepPartRaw) : 1` — the step of an item
(the part after `/` when present and nonempty, else 1 by JS falsiness). -/
def stepOf (item : List Char) : JSNum :=
  match (splitOnC '/' item).get? 1 with
  | none => .num 1
  | some [] => .num 1
  | some s => jsNumber s

/-- `const rangePart = rangePartRaw.trim()` — the trimmed part before `/`. -/
def rangePartOf (item : List Char) : List Char :=
  jsTrimL ((splitOnC '/' item).headD [])

/-- The `range` loop over the clamped JS bounds: a `NaN` bound makes
`value <= end` false at the first test, so the loop body never runs (the
clamped bounds are finite numbers or `NaN`, never `±Infinity`). -/
def rangeJ (start stop : JSNum) (step : ℚ) : List JSNum :=
  match start, stop with
  | .num a, .num b => (rangeQ a b step).map JSNum.num
  | _, _ => []

/-- Process one comma-separated item of a field (the body of the `for` loop
in `expandToken`).  Returns the wildcard contribution and the values the
item adds to the result set. -/
def processItem (item : List Char) (lo hi : ℚ) (dict : Option AliasDict)
    (allowWrap : Bool) : Except String (Bool × List JSNum) :=
  let step : JSNum := stepOf item
  if stepPositive step = false then .error "无效的步长"
  else
    let stepQ : ℚ := match step with | .num q => q | _ => 1
    let rangePart := rangePartOf item
    if rangePart = ['*'] then .ok (true, (rangeQ lo hi stepQ).map JSNum.num)
    else if rangePart.contains '-' then
      match splitOnC '-' rangePart with
      | startText :: endText :: _ =>
        match parseAlias startText dict allowWrap with
        | .error err => .error err
        | .ok start =>
          match parseAlias endText dict allowWrap with
          | .error err => .error err
          | .ok stop =>
            let startC := clampJS start lo hi
            let stopC := clampJS stop lo hi
            if jsLtJ stopC startC then .error "范围必须从小到大"
            else .ok (false, rangeJ startC stopC stepQ)
      | _ => .error "unreachable" -- a string containing '-' splits into ≥ 2 parts
    else
      match parseAlias rangePart dict allowWrap with
      | .error err => .error err
      | .ok value => .ok (false, [clampJS value lo hi])

/-- JS `Set` insertion: append when not already present (SameValueZero, so
`NaN` equals `NaN` and is stored once — `DecidableEq JSNum` matches). -/
def setAdd (acc : List JSNum) (v : JSNum) : List JSNum :=
  if v ∈ acc then acc else acc ++ [v]

/-- Fold of `processItem` over the comma-separated items, accumulating the
wildcard flag and the insertion-ordered result set; empty items are
skipped. -/
def expandItems (lo hi : ℚ) (dict : Option AliasDict) (allowWrap : Bool) :
    List (List Char) → Bool → List JSNum → Except String (Bool × List JSNum)
  | [], w, acc => .ok (w, acc)
  | rawItem :: rest, w, acc =>
    let item := jsTrimL rawItem
    if item = [] then expandItems lo hi dict allowWrap rest w acc
    else
      match processItem item lo hi dict allowWrap with
      | .error e => .error e
      | .ok (w2, vs) =>
        expandItems lo hi dict allowWrap rest (w || w2) (vs.foldl setAdd acc)

/-- The sort comparator `(a, b) => a - b` as seen through ECMAScript
`SortCompare`, which maps a `NaN` comparator result to `+0` ("equal"): on
finite numbers the usual order, any pair involving `NaN` a tie.  (With a
`NaN` element the comparator is inconsistent and ECMAScript leaves the
resulting order implementation-defined; the stable insertion sort below
fixes one compliant order.  Matching reads the values purely through set
membership, which is order-blind.) -/
def jsSortLeB (a b : JSNum) : Bool :=
  match a, b with
  | .num x, .num y => decide (x ≤ y)
  | _, _ => true

/-- `expandToken`: one cron field to its `(wildcard, sorted values)` pair. -/
def expandToken (token : List Char) (lo hi : ℚ) (dict : Option AliasDict := none)
    (allowWrap : Bool := false) : Except String (Bool × List JSNum) :=
  let clean := jsTrimL token
  if clean = [] then .error "Cron 字段不能为空"
  else if clean = ['?'] then .ok (true, (rangeQ lo hi 1).map JSNum.num)
  else
    match expandItems lo hi dict allowWrap (splitOnC ',' clean) false [] with
    | .error err => .error err
    | .ok (w, values) =>
      .ok (w, values.insertionSort (fun a b => jsSortLeB a b = true))

def toFieldSet (r : Bool × List JSNum) : CronFieldSet :=
  { wildcard := r.1, values := r.2 }

/-- `parseCronExpression`.  The `parts.length !== 5` guard and the
five-way destructuring of the TS source are fused into the exact-arity
pattern: the first branch fires iff the normalized expression splits into
exactly 5 fields. -/
def parseCronExpression (expression : String) : Except String ParsedCron :=
  let normalized := normalizeL expression.data
  match splitOnC ' ' normalized with
  | [minuteText, hourText, domText, monthText, dowText] =>
    match expandToken minuteText 0 59 with
    | .error err => .error err
    | .ok minutes =>
      match expandToken hourText 0 23 with
      | .error err => .error err
      | .ok hours =>
        match expandToken domText 1 31 with
        | .error err => .error err
        | .ok daysOfMonth =>
          match expandToken monthText 1 12 (some MONTH_ALIASES) with
          | .error err => .error err
          | .ok months =>
            match expandToken dowText 0 6 (some WEEK_ALIASES) true with
            | .error err => .error err
            | .ok daysOfWeek =>
              .ok { source := ⟨normalized⟩
                    minutes := toFieldSet minutes
                    hours := toFieldSet hours
                    daysOfMonth := toFieldSet daysOfMonth
                    months := toFieldSet months
                    daysOfWeek := toFieldSet daysOfWeek }
  | _ => .error "Cron 表达式必须包含 5 个字段（分 时 日 月 周）"

/-- `isCronExpressionValid`. -/
def isCronExpressionValid (expression : String) : Bool :=
  match parseCronExpression expression with
  | .ok _ => true
  | .error _ => false

/-! ### Specification-side rejection predicates (claim C4)

`specRejects` renders the claim's enumeration of rejection causes: not 5
whitespace-separated fields, an empty field, a step that is not a positive
finite number, a range descending after clamping, or a token that is
neither a recognized alias nor a number.  It shares only the tokenization
primitives (`splitOnC`, `jsTrimL`, `jsNumber`, `clampJS`) with the parser;
its decision structure follows the claim, not the code.

This enumeration is FALSE of the program: the `lowered in dict` test of
`parseAlias` walks the prototype chain, so in the aliased month and
day-of-week fields a token that lower-cases to an `Object.prototype`
member name (`constructor`, `__proto__`) is accepted — it is neither a
recognized alias nor a number, yet no error is thrown; the inherited value
clamps to `NaN`, which is silently added to the value set
(`parse_reject_iff_c4_counterexample`).  The `A`-suffixed predicates
render the amended enumeration, identical except that such tokens
resolve. -/

/-- A token resolves when it is a recognized alias of the field's
dictionary or `Number(token)` is not `NaN`; day-of-week wrapping maps the
number 7 to 0. -/
def specResolve (t : List Char) (dict : Option AliasDict) (wrap : Bool) :
    Option JSNum :=
  let viaNumber : Option JSNum :=
    match jsNumber t with
    | .nan => none
    | v => if wrap ∧ v = .num 7 then some (.num 0) else some v
  match dict with
  | some d =>
    match d.find? (fun kv => kv.1 = t.map jsToLower) with
    | some kv => some (.num kv.2)
    | none => viaNumber
  | none => viaNumber

/-- A single comma-separated item is rejected iff its step is not a
positive finite number, or (when it is not the `*` form) its range
endpoints or single value fail to resolve, or the range descends after
clamping. -/
def specItemRejects (item : List Char) (lo hi : ℚ) (dict : Option AliasDict)
    (wrap : Bool) : Bool :=
  (stepPositive (stepOf item) = false) ||
    (let rp := rangePartOf item
     rp ≠ ['*'] &&
      (if rp.contains '-' then
        match splitOnC '-' rp with
        | a :: b :: _ =>
          match specResolve a dict wrap, specResolve b dict wrap with
          | none, _ => true
          | some _, none => true
          | some va, some vb => jsLtJ (clampJS vb lo hi) (clampJS va lo hi)
        | _ => true
      else specResolve rp dict wrap = none))

/-- A field is rejected iff it is empty, or it is not the `?` wildcard and
one of its (nonempty) comma-separated items is rejected. -/
def specFieldRejects (tok : List Char) (lo hi : ℚ) (dict : Option AliasDict)
    (wrap : Bool) : Bool :=
  if jsTrimL tok = [] then true
  else if jsTrimL tok = ['?'] then false
  else
    (splitOnC ',' (jsTrimL tok)).any
      (fun item => jsTrimL item ≠ [] && specItemRejects (jsTrimL item) lo hi dict wrap)

/-- The claim's characterization of rejection for a whole expression. -/
def specRejects (e : String) : Bool :=
  match splitOnC ' ' (normalizeL e.data) with
  | [t1, t2, t3, t4, t5] =>
    specFieldRejects t1 0 59 none false ||
    specFieldRejects t2 0 23 none false ||
    specFieldRejects t3 1 31 none false ||
    specFieldRejects t4 1 12 (some MONTH_ALIASES) false ||
    specFieldRejects t5 0 6 (some WEEK_ALIASES) true
  | _ => true

/-- Amended resolution: as `specResolve`, except that in an aliased field a
token whose lower-casing is an inherited `Object.prototype` member name
also resolves — to the member's numeric coercion `NaN` — instead of being
rejected. -/
def specResolveA (t : List Char) (dict : Option AliasDict) (wrap : Bool) :
    Option JSNum :=
  let viaNumber : Option JSNum :=
    match jsNumber t with
    | .nan => none
    | v => if wrap ∧ v = .num 7 then some (.num 0) else some v
  match dict with
  | some d =>
    match d.find? (fun kv => kv.1 = t.map jsToLower) with
    | some kv => some (.num kv.2)
    | none =>
      if t.map jsToLower ∈ OBJECT_PROTOTYPE_KEYS then some .nan
      else viaNumber
  | none => viaNumber

/-- Amended item rejection: as `specItemRejects` with the amended
resolution. -/
def specItemRejectsA (item : List Char) (lo hi : ℚ) (dict : Option AliasDict)
    (wrap : Bool) : Bool :=
  (stepPositive (stepOf item) = false) ||
    (let rp := rangePartOf item
     rp ≠ ['*'] &&
      (if rp.contains '-' then
        match splitOnC '-' rp with
        | a :: b :: _ =>
          match specResolveA a dict wrap, specResolveA b dict wrap with
          | none, _ => true
          | some _, none => true
          | some va, some vb => jsLtJ (clampJS vb lo hi) (clampJS va lo hi)
        | _ => true
      else specResolveA rp dict wrap = none))

/-- Amended field rejection: as `specFieldRejects` with the amended item
rejection. -/
def specFieldRejectsA (tok : List Char) (lo hi : ℚ) (dict : Option AliasDict)
    (wrap : Bool) : Bool :=
  if jsTrimL tok = [] then true
  else if jsTrimL tok = ['?'] then false
  else
    (splitOnC ',' (jsTrimL tok)).any
      (fun item => jsTrimL item ≠ [] && specItemRejectsA (jsTrimL item) lo hi dict wrap)

/-- The amended characterization of rejection for a whole expression. -/
def specRejectsA (e : String) : Bool :=
  match splitOnC ' ' (normalizeL e.data) with
  | [t1, t2, t3, t4, t5] =>
    specFieldRejectsA t1 0 59 none false ||
    specFieldRejectsA t2 0 23 none false ||
    specFieldRejectsA t3 1 31 none false ||
    specFieldRejectsA t4 1 12 (some MONTH_ALIASES) false ||
    specFieldRejectsA t5 0 6 (some WEEK_ALIASES) true
  | _ => true

/-- `.ok`-ness of an `Except`, used to phrase "rejects". -/
def isOkE {ε α : Type} : Except ε α → Bool
  | .ok _ => true
  | .error _ => false

/-! ## Dates and matching

A JS `Date` is modelled as a normalized Gregorian calendar instant at
second precision (milliseconds play no role: `setSeconds(0, 0)` zeroes
them together with the seconds).  `month` is the human 1-based month, so
the TS `date.getMonth() + 1` is `DateTime.month` here. -/

structure DateTime where
  year : ℕ
  month : ℕ
  day : ℕ
  hour : ℕ
  minute : ℕ
  second : ℕ
deriving DecidableEq, Repr

def isLeap (y : ℕ) : Bool :=
  (y % 4 = 0 && y % 100 ≠ 0) || y % 400 = 0

def daysInMonth (y m : ℕ) : ℕ :=
  if m = 2 then (if isLeap y then 29 else 28)
  else if m = 4 ∨ m = 6 ∨ m = 9 ∨ m = 11 then 30
  else 31

/-- Days before the first of month `m` within year `y`. -/
def daysBeforeMonth (y m : ℕ) : ℕ :=
  (List.range (m - 1)).foldl (fun acc i => acc + daysInMonth y (i + 1)) 0

/-- Days since 0001-01-01 in the proleptic Gregorian calendar. -/
def dayNumber (y m d : ℕ) : ℕ :=
  365 * (y - 1) + (y - 1) / 4 - (y - 1) / 100 + (y - 1) / 400 +
    daysBeforeMonth y m + (d - 1)

/-- JS `Date.prototype.getDay`: 0 = Sunday … 6 = Saturday.
0001-01-01 (proleptic Gregorian) was a Monday, hence the `+ 1`. -/
def dayOfWeek (d : DateTime) : ℕ :=
  (dayNumber d.year d.month d.day + 1) % 7

/-- `cursor.setMinutes(cursor.getMinutes() + 1)` on a normalized date:
add one minute, carrying into hours, days, months and years. -/
def addOneMinute (d : DateTime) : DateTime :=
  if d.minute + 1 ≤ 59 then { d with minute := d.minute + 1 }
  else if d.hour + 1 ≤ 23 then { d with minute := 0, hour := d.hour + 1 }
  else if d.day + 1 ≤ daysInMonth d.year d.month then
    { d with minute := 0, hour := 0, day := d.day + 1 }
  else if d.month + 1 ≤ 12 then
    { d with minute := 0, hour := 0, day := 1, month := d.month + 1 }
  else
    { d with minute := 0, hour := 0, day := 1, month := 1, year := d.year + 1 }

/-- `cursor.setSeconds(0, 0)`. -/
def floorToMinute (d : DateTime) : DateTime :=
  { d with second := 0 }

def addMinutesN : ℕ → DateTime → DateTime
  | 0, d => d
  | k + 1, d => addMinutesN k (addOneMinute d)

/-- Evaluation variant of `addMinutesN` that destructures the date before
each step, so that kernel reduction normalizes the cursor incrementally
instead of building one deep `addOneMinute` nest (`addMinutesF_eq`
identifies the two). -/
def addMinutesF : ℕ → DateTime → DateTime
  | 0, d => d
  | k + 1, ⟨y, mo, da, h, mi, s⟩ => addMinutesF k (addOneMinute ⟨y, mo, da, h, mi, s⟩)

/-- `matchesField`: `field.valueSet.has(value)` — SameValueZero membership
of the date component (always a real number, hence the cast through
`JSNum.num`; a `NaN` entry in the set never equals it) in the value set. -/
def matchesField (field : CronFieldSet) (value : ℚ) : Bool :=
  decide (JSNum.num value ∈ field.values)

/-- `matchesDay`. -/
def matchesDay (cron : ParsedCron) (date : DateTime) : Bool :=
  let domWildcard := cron.daysOfMonth.wildcard
  let dowWildcard := cron.daysOfWeek.wildcard
  let domMatch := matchesField cron.daysOfMonth (date.day : ℚ)
  let dowMatch := matchesField cron.daysOfWeek (dayOfWeek date : ℚ)
  if domWildcard && dowWildcard then true
  else if domWildcard then dowMatch
  else if dowWildcard then domMatch
  else domMatch || dowMatch

/-- `cronMatchesDate`. -/
def cronMatchesDate (cron : ParsedCron) (date : DateTime) : Bool :=
  if matchesField cron.minutes (date.minute : ℚ) = false then false
  else if matchesField cron.hours (date.hour : ℚ) = false then false
  else if matchesField cron.months (date.month : ℚ) = false then false
  else if matchesDay cron date = false then false
  else true

/-- The search loop of `computeNextOccurrence`: up to `fuel` one-minute
steps, returning the first matching instant. -/
def nextLoop (cron : ParsedCron) : DateTime → ℕ → Option DateTime
  | _, 0 => none
  | cursor, fuel + 1 =>
    if cronMatchesDate cron cursor then some cursor
    else nextLoop cron (addOneMinute cursor) fuel

/-- `computeNextOccurrence` (`.error` models the JS exception escaping when
the expression does not parse; `none` models the `null` return). -/
def computeNextOccurrence (expression : String) (fromDate : DateTime) :
    Except String (Option DateTime) := do
  let cron ← parseCronExpression expression
  let cursor := addOneMinute (floorToMinute fromDate)
  return nextLoop cron cursor (365 * 24 * 60)

/-- Number of instants among the `n` one-minute steps starting at `d`
(inclusive) that the schedule matches: the observation C2 quantifies. -/
def countLoop (cron : ParsedCron) : DateTime → ℕ → ℕ
  | _, 0 => 0
  | d, n + 1 => (if cronMatchesDate cron d then 1 else 0) + countLoop cron (addOneMinute d) n

/-- Fires of a schedule over the `n` minute-aligned instants from `d`;
`none` when the expression does not parse. -/
def countFires (expression : String) (d : DateTime) (n : ℕ) : Option ℕ :=
  match parseCronExpression expression with
  | .ok cron => some (countLoop cron d n)
  | .error _ => none

/-! ## Transfer store (`src/stores/transferStore.ts`) -/

inductive TransferDirection where
  | upload | download
deriving DecidableEq, Repr

inductive TransferStatus where
  | pending | running | paused | success | failed
deriving DecidableEq, Repr

inductive TransferKind where
  | file_upload | folder_upload | file_download | folder_download
deriving DecidableEq, Repr

structure UploadResumePayload where
  upload_id : String
  block_size : ℚ
  next_seq : ℚ
  parent_token : String
  file_path : String
  file_name : String
  size : ℚ
deriving DecidableEq, Repr

structure DownloadResumePayload where
  temp_path : String
  target_path : String
  downloaded : ℚ
  token : String
  file_name : String
deriving DecidableEq, Repr

/-- `TransferResume` (the `mode` discriminant becomes the constructor). -/
inductive TransferResume where
  | upload_file : UploadResumePayload → TransferResume
  | download_file : DownloadResumePayload → TransferResume
deriving DecidableEq, Repr

structure TransferTask where
  id : String
  direction : TransferDirection
  kind : TransferKind
  name : String
  tenant_id : Option String
  parent_token : Option String
  resource_token : Option String
  local_path : Option String
  remote_path : Option String
  size : ℚ
  transferred : ℚ
  status : TransferStatus
  message : Option String
  created_at : String
  updated_at : String
  resume : Option TransferResume
deriving DecidableEq, Repr

/-- One entry of the module-level `metricMap`. -/
structure Metric where
  bytes : ℚ
  time : ℚ
deriving DecidableEq, Repr

/-- The store state the claims observe: the reactive `tasks` list plus the
`metricMap` cache and the `speeds` record (both keyed by task id). -/
structure TransferState where
  tasks : List TransferTask
  metricMap : String → Option Metric
  speeds : String → ℚ

/-- `computeSpeed(task)`: records the task's rolling speed sample. `now` is
`Date.now()` in milliseconds. -/
def computeSpeed (st : TransferState) (task : TransferTask) (now : ℚ) :
    TransferState :=
  let previous := st.metricMap task.id
  let speed : ℚ :=
    match previous with
    | some prev =>
      if task.status = .running then
        let deltaBytes := qSub task.transferred prev.bytes
        let deltaSeconds := max (qDiv (qSub now prev.time) 1000) (mkRat 1 1000)
        if 0 ≤ deltaBytes then qDiv deltaBytes deltaSeconds else 0
      else 0
    | none => 0
  { st with
    metricMap := fun i => if i = task.id then some ⟨task.transferred, now⟩ else st.metricMap i
    speeds := fun i => if i = task.id then speed else st.speeds i }

/-- The list update inside `upsert`: `findIndex` then `splice`-replace, or
prepend when the id is absent. -/
def upsertTasks (task : TransferTask) (tasks : List TransferTask) :
    List TransferTask :=
  match tasks.findIdx? (fun item => item.id = task.id) with
  | some i => tasks.set i task
  | none => task :: tasks

/-- `upsert(task)`: update the `tasks` list, then `computeSpeed(task)`. -/
def upsert (st : TransferState) (task : TransferTask) (now : ℚ) : TransferState :=
  computeSpeed { st with tasks := upsertTasks task st.tasks } task now

/-! ## Tenant store (`src/stores/tenantStore.ts`) -/

inductive TenantPlatform where
  | lark | feishu
deriving DecidableEq, Repr

inductive TenantPermission where
  | read_only | read_write
deriving DecidableEq, Repr

structure TenantInstance where
  id : String
  name : String
  app_id : String
  app_secret : Option String
  quota_gb : ℚ
  used_gb : ℚ
  active : Bool
  platform : TenantPlatform
  order : ℚ
  permission : TenantPermission
deriving DecidableEq, Repr

structure ReorderItem where
  tenant_id : String
  order : ℚ
deriving DecidableEq, Repr

/-- Lookup in `new Map(items.map(...))`: the Map retains the *last* pair
written for a key, so the last matching item wins. -/
def orderLookup (items : List ReorderItem) (tid : String) : Option ℚ :=
  (items.reverse.find? (fun it => it.tenant_id = tid)).map (fun it => it.order)

/-- `{ ...tenant, order: orderMap.get(tenant.id) ?? tenant.order }`. -/
def applyOrder (items : List ReorderItem) (t : TenantInstance) : TenantInstance :=
  { t with order := (orderLookup items t.id).getD t.order }

/-- The local state update performed by `reorder` after the backend call:
map in the requested orders, then sort ascending by `order`
(`.sort((a, b) => a.order - b.order)`; JS sort is stable, and
insertion sort realizes a stable sort). -/
def reorderLocal (items : List ReorderItem) (tenants : List TenantInstance) :
    List TenantInstance :=
  (tenants.map (applyOrder items)).insertionSort (fun a b => a.order ≤ b.order)

/-! ## Task store (`src/stores/taskStore.ts`) -/

inductive TaskDirection where
  | cloud_to_local | local_to_cloud | bidirectional
deriving DecidableEq, Repr

inductive TaskDetectionMode where
  | metadata | size | checksum
deriving DecidableEq, Repr

inductive ConflictStrategy where
  | prefer_remote | prefer_local | newest
deriving DecidableEq, Repr

inductive TaskStatus where
  | idle | scheduled | running | success | failed
deriving DecidableEq, Repr

structure SyncTask where
  id : String
  name : String
  direction : TaskDirection
  groupId : String
  groupName : Option String
  tenantId : String
  tenantName : Option String
  remoteFolderToken : String
  remoteLabel : String
  localPath : String
  schedule : String
  enabled : Bool
  detection : TaskDetectionMode
  conflict : ConflictStrategy
  propagateDelete : Bool
  includePatterns : List String
  excludePatterns : List String
  notes : Option String
  createdAt : String
  updatedAt : String
  nextRunAt : Option String
  lastRunAt : Option String
  lastStatus : TaskStatus
  lastMessage : Option String
  consecutiveFailures : ℕ
  linkedTransferIds : List String
deriving DecidableEq, Repr

/-- The raw backend record (`task: any`) that `fromBackendTask` consumes.
String fields read through `|| fallback` are plain strings here (the empty
string is the falsy case); fields that may be absent are `Option`s. -/
structure BackendTask where
  id : String
  name : String
  direction : TaskDirection
  group_id : String
  group_name : String
  tenant_id : String
  tenant_name : String
  remote_folder_token : String
  remote_label : String
  local_path : String
  schedule : String
  enabled : Bool
  detection : TaskDetectionMode
  conflict : ConflictStrategy
  propagate_delete : Bool
  include_patterns : Option (List String)
  exclude_patterns : Option (List String)
  notes : String
  created_at : String
  updated_at : String
  next_run_at : String
  last_run_at : String
  last_status : TaskStatus
  last_message : String
  consecutive_failures : Option ℕ
  linked_transfer_ids : Option (List String)
deriving DecidableEq, Repr

/-- `x || undefined` (resp. `x || null`) on a string: empty is falsy. -/
def presentStr (s : String) : Option String :=
  if s = "" then none else some s

/-- `fromBackendTask`. -/
def fromBackendTask (task : BackendTask) : SyncTask :=
  { id := task.id
    name := task.name
    direction := task.direction
    groupId := task.group_id
    groupName := presentStr task.group_name
    tenantId := task.tenant_id
    tenantName := presentStr task.tenant_name
    remoteFolderToken := task.remote_folder_token
    remoteLabel := task.remote_label
    localPath := task.local_path
    schedule := task.schedule
    enabled := task.enabled
    detection := task.detection
    conflict := task.conflict
    propagateDelete := task.propagate_delete
    includePatterns := task.include_patterns.getD []
    excludePatterns := task.exclude_patterns.getD []
    notes := presentStr task.notes
    createdAt := task.created_at
    updatedAt := task.updated_at
    nextRunAt := presentStr task.next_run_at
    lastRunAt := presentStr task.last_run_at
    lastStatus := task.last_status
    lastMessage := presentStr task.last_message
    consecutiveFailures := task.consecutive_failures.getD 0
    linkedTransferIds := task.linked_transfer_ids.getD [] }

/-- First-occurrence deduplication, as iterating a JS `Set` preserves
insertion order; `seen` is the set built so far. -/
def dedupFirstAux (seen : List String) : List String → List String
  | [] => []
  | x :: xs =>
    if x ∈ seen then dedupFirstAux seen xs
    else x :: dedupFirstAux (x :: seen) xs

def dedupFirst (l : List String) : List String :=
  dedupFirstAux [] l

/-- `sanitizePatterns`: trim, drop empties, deduplicate keeping first. -/
def sanitizePatterns (patterns : List String) : List String :=
  dedupFirst ((patterns.map (fun s => ⟨jsTrimL s.data⟩)).filter (fun s => s ≠ ""))

/-- `normalizeTask`. -/
def normalizeTask (task : SyncTask) : SyncTask :=
  { task with
    schedule := normalizeCronExpression
      (if task.schedule = "" then "* * * * *" else task.schedule)
    includePatterns := sanitizePatterns task.includePatterns
    excludePatterns := sanitizePatterns task.excludePatterns }

/-- `validateCron` on the task store. -/
def validateCron (expression : String) : Bool :=
  isCronExpressionValid expression

/-- Payload of `createTask` (only the `schedule` field participates in the
claims; the rest rides along for fidelity). -/
structure TaskPayload where
  name : String
  direction : TaskDirection
  schedule : String
deriving DecidableEq, Repr

/-- Result of a `createTask` call: the thrown-or-returned value, the new
`tasks` state, and whether the backend `create_sync_task` command was
invoked. -/
structure CreateTaskResult where
  result : Except String SyncTask
  tasks : List SyncTask
  invoked : Bool

/-- `createTask`: validate the cron schedule, invoke the backend (whose
response is the `backend` parameter), normalize and prepend. -/
def createTask (payload : TaskPayload) (backend : BackendTask)
    (tasks : List SyncTask) : CreateTaskResult :=
  if validateCron payload.schedule = false then
    { result := .error "Cron 表达式无效", tasks := tasks, invoked := false }
  else
    let normalized := normalizeTask (fromBackendTask backend)
    { result := .ok normalized, tasks := normalized :: tasks, invoked := true }

/-! ## Security store (`src/stores/securityStore.ts`) -/

/-- `Number.prototype.toString(16)` for a nonnegative integer: base-16
digits, lower-case, most significant first.  The fuel argument of the
worker is an upper bound on the digit count (`n` itself more than
suffices); the recursion is `n → n / 16`. -/
def toStringBase16 (n : ℕ) : List Char :=
  go (n + 1) n
where
  hexDigitChar (d : ℕ) : Char :=
    if d < 10 then Char.ofNat ('0'.toNat + d) else Char.ofNat ('a'.toNat + (d - 10))
  go : ℕ → ℕ → List Char
  | 0, _ => []
  | fuel + 1, n => if n < 16 then [hexDigitChar n] else go fuel (n / 16) ++ [hexDigitChar (n % 16)]

/-- `String.prototype.padStart(target, c)`. -/
def padStartL (target : ℕ) (c : Char) (s : List Char) : List Char :=
  List.replicate (target - s.length) c ++ s

/-- `randomKey` as a function of the 24 random bytes:
`Array.from(bytes, (b) => b.toString(16).padStart(2, '0')).join('')`. -/
def randomKey (bytes : List ℕ) : String :=
  ⟨(bytes.map (fun b => padStartL 2 '0' (toStringBase16 b))).flatten⟩

/-- The lowercase hexadecimal alphabet. -/
def hexChars : List Char := "0123456789abcdef".data

/-- Sample byte vector for the C10 witness. -/
def bytes24 : List ℕ :=
  [0, 1, 15, 16, 127, 128, 255, 2, 3, 44, 55, 66, 77, 88, 99, 100,
   111, 133, 177, 199, 203, 222, 240, 250]

/-- Sample state for the C9 witness. -/
def taskA : TransferTask :=
  { id := "a", direction := .upload, kind := .file_upload, name := "a.txt"
    tenant_id := none, parent_token := none, resource_token := none
    local_path := none, remote_path := none, size := 10, transferred := 0
    status := .pending, message := none, created_at := "t0", updated_at := "t0"
    resume := none }

def taskB : TransferTask :=
  { taskA with id := "b", name := "b.txt" }

def stC9 : TransferState :=
  { tasks := [taskA, taskB], metricMap := fun _ => none, speeds := fun _ => 0 }

/-- Parsed form of `*/7 * * * *`. -/
def cron7 : ParsedCron :=
  { source := "*/7 * * * *"
    minutes := ⟨true, List.map JSNum.num [0, 7, 14, 21, 28, 35, 42, 49, 56]⟩
    hours := ⟨true, List.map JSNum.num [0, 1, 2, 3, 4, 5, 6, 7, 8, 9, 10, 11, 12,
                     13, 14, 15, 16, 17, 18, 19, 20, 21, 22, 23]⟩
    daysOfMonth := ⟨true, List.map JSNum.num
                          [1, 2, 3, 4, 5, 6, 7, 8, 9, 10, 11, 12, 13, 14, 15, 16,
                           17, 18, 19, 20, 21, 22, 23, 24, 25, 26, 27, 28, 29, 30, 31]⟩
    months := ⟨true, List.map JSNum.num [1, 2, 3, 4, 5, 6, 7, 8, 9, 10, 11, 12]⟩
    daysOfWeek := ⟨true, List.map JSNum.num [0, 1, 2, 3, 4, 5, 6]⟩ }

/-- A `DateTime` is valid when the components the `*/7 * * * *` analysis
touches are in JS `Date` range. -/
def ValidDT (d : DateTime) : Prop :=
  d.minute < 60 ∧ d.hour < 24 ∧ 1 ≤ d.month ∧ d.month ≤ 12

instance (d : DateTime) : Decidable (ValidDT d) := by
  unfold ValidDT; infer_instance

/-- Pure minute-residue counter corresponding to `countLoop cron7`. -/
def cntP (m n : ℕ) : ℕ :=
  (List.range n).countP (fun k => decide ((m + k) % 60 % 7 = 0))

/-- Parsed form of `0 9 1 * 1` (9:00 on the 1st of each month or Monday). -/
def cronW : ParsedCron :=
  { source := "0 9 1 * 1"
    minutes := ⟨false, [JSNum.num 0]⟩
    hours := ⟨false, [JSNum.num 9]⟩
    daysOfMonth := ⟨false, [JSNum.num 1]⟩
    months := ⟨true, List.map JSNum.num [1, 2, 3, 4, 5, 6, 7, 8, 9, 10, 11, 12]⟩
    daysOfWeek := ⟨false, [JSNum.num 1]⟩ }

def backendC6 : BackendTask :=
  { id := "task-1", name := "sync documents", direction := .bidirectional
    group_id := "g1", group_name := "", tenant_id := "t1", tenant_name := "Alpha"
    remote_folder_token := "tok", remote_label := "Docs", local_path := "/data"
    schedule := "0 9  *  * *", enabled := true, detection := .metadata
    conflict := .newest, propagate_delete := false
    include_patterns := some ["  *.md", "*.md", ""], exclude_patterns := none
    notes := "", created_at := "c", updated_at := "u", next_run_at := ""
    last_run_at := "", last_status := .idle, last_message := ""
    consecutive_failures := none, linked_transfer_ids := none }

instance : IsTotal TenantInstance (fun a b => a.order ≤ b.order) :=
  ⟨fun a b => le_total a.order b.order⟩

instance : IsTrans TenantInstance (fun a b => a.order ≤ b.order) :=
  ⟨fun _ _ _ hab hbc => le_trans hab hbc⟩

def tenant0 : TenantInstance :=
  { id := "a", name := "Alpha", app_id := "app", app_secret := none
    quota_gb := 100, used_gb := 5, active := true, platform := .feishu
    order := 9, permission := .read_write }

def itemsC7 : List ReorderItem := [⟨"a", 5⟩, ⟨"a", 2⟩]

/-- Sample state for the C8 witness. -/
def taskC8 : TransferTask :=
  { taskA with id := "t", status := .running, transferred := 5 }

def stC8 : TransferState :=
  { tasks := [taskC8]
    metricMap := fun i => if i = "t" then some ⟨5, 1000⟩ else none
    speeds := fun _ => 0 }

/-! # Theorems -/

theorem den_cast_ne_zero (a : ℚ) : ((a.den : ℚ)) ≠ 0 :=
  Nat.cast_ne_zero.mpr a.den_nz

theorem qAdd_eq (a b : ℚ) : qAdd a b = a + b := by
  rw [qAdd, Rat.divInt_eq_div]
  conv_rhs => rw [← Rat.num_div_den a, ← Rat.num_div_den b]
  rw [div_add_div _ _ (den_cast_ne_zero a) (den_cast_ne_zero b)]
  push_cast
  ring_nf

theorem qSub_eq (a b : ℚ) : qSub a b = a - b := by
  rw [qSub, Rat.divInt_eq_div]
  conv_rhs => rw [← Rat.num_div_den a, ← Rat.num_div_den b]
  rw [div_sub_div _ _ (den_cast_ne_zero a) (den_cast_ne_zero b)]
  push_cast
  ring_nf

theorem qMul_eq (a b : ℚ) : qMul a b = a * b := by
  rw [qMul, Rat.divInt_eq_div]
  conv_rhs => rw [← Rat.num_div_den a, ← Rat.num_div_den b]
  rw [div_mul_div_comm]
  push_cast
  ring_nf

theorem qDiv_eq (a b : ℚ) : qDiv a b = a / b := by
  rw [qDiv, Rat.divInt_eq_div, div_eq_mul_inv a b, Rat.inv_def',
    Rat.divInt_eq_div]
  push_cast
  rw [← div_mul_div_comm, Rat.num_div_den]

/-! ## C10: `randomKey` produces 48 lowercase hex characters -/

theorem hexDigitChar_mem {d : ℕ} (h : d < 16) :
    toStringBase16.hexDigitChar d ∈ hexChars := by
  interval_cases d <;> decide

theorem toStringBase16_go_small {fuel m : ℕ} (hm : m < 16) (hf : 1 ≤ fuel) :
    toStringBase16.go fuel m = [toStringBase16.hexDigitChar m] := by
  cases fuel with
  | zero => omega
  | succ f => simp [toStringBase16.go, hm]

theorem byteHex_spec {b : ℕ} (h : b < 256) :
    (padStartL 2 '0' (toStringBase16 b)).length = 2 ∧
      ∀ c ∈ padStartL 2 '0' (toStringBase16 b), c ∈ hexChars := by
  by_cases hb : b < 16
  · rw [toStringBase16, toStringBase16_go_small hb (by omega)]
    refine ⟨rfl, ?_⟩
    intro c hc
    rcases hc with _ | ⟨_, hc⟩
    · decide
    · rcases hc with _ | ⟨_, hc⟩
      · exact hexDigitChar_mem hb
      · cases hc
  · have h16 : 16 ≤ b := by omega
    have hdiv : b / 16 < 16 := by omega
    have hrw : toStringBase16 b =
        toStringBase16.go b (b / 16) ++ [toStringBase16.hexDigitChar (b % 16)] := by
      rw [toStringBase16, toStringBase16.go]
      simp [Nat.not_lt.mpr h16]
    rw [hrw, toStringBase16_go_small hdiv (by omega)]
    refine ⟨rfl, ?_⟩
    intro c hc
    rcases hc with _ | ⟨_, hc⟩
    · exact hexDigitChar_mem hdiv
    · rcases hc with _ | ⟨_, hc⟩
      · exact hexDigitChar_mem (Nat.mod_lt _ (by omega))
      · cases hc

theorem randomKey_flatten_spec :
    ∀ bytes : List ℕ, (∀ b ∈ bytes, b < 256) →
      ((bytes.map (fun b => padStartL 2 '0' (toStringBase16 b))).flatten).length
          = 2 * bytes.length ∧
        ∀ c ∈ (bytes.map (fun b => padStartL 2 '0' (toStringBase16 b))).flatten,
          c ∈ hexChars := by
  intro bytes
  induction bytes with
  | nil => intro _; exact ⟨rfl, by intro c hc; simp at hc⟩
  | cons b rest ih =>
    intro h
    have hb : b < 256 := h b (List.mem_cons_self _ _)
    have hrest := ih (fun x hx => h x (List.mem_cons_of_mem _ hx))
    obtain ⟨hl, hm⟩ := byteHex_spec hb
    constructor
    · simp only [List.map_cons, List.flatten_cons, List.length_append, hl,
        hrest.1, List.length_cons]
      ring
    · intro c hc
      simp only [List.map_cons, List.flatten_cons, List.mem_append] at hc
      rcases hc with hc | hc
      · exact hm c hc
      · exact hrest.2 c hc

/-- C10: for every value of the 24 random bytes, `randomKey` yields a string
of exactly 48 lowercase hexadecimal characters (each byte rendered as two
zero-padded hex digits). -/
theorem randomKey_hex_c10 (bytes : List ℕ) (hlen : bytes.length = 24)
    (hbyte : ∀ b ∈ bytes, b < 256) :
    (randomKey bytes).length = 48 ∧ ∀ c ∈ (randomKey bytes).data, c ∈ hexChars := by
  have h := randomKey_flatten_spec bytes hbyte
  constructor
  · show (randomKey bytes).data.length = 48
    rw [show (randomKey bytes).data
        = (bytes.map (fun b => padStartL 2 '0' (toStringBase16 b))).flatten from rfl]
    rw [h.1, hlen]
  · exact h.2

theorem randomKey_hex_c10_witness :
    (bytes24.length = 24 ∧ ∀ b ∈ bytes24, b < 256) ∧
      ((randomKey bytes24).length = 48 ∧
        ∀ c ∈ (randomKey bytes24).data, c ∈ hexChars) :=
  ⟨⟨by decide, by decide⟩, randomKey_hex_c10 bytes24 (by decide) (by decide)⟩

/-! ## C9: `upsert` keeps the task list duplicate-free by id -/

theorem set_eq_self_of_getElem? {α : Type} :
    ∀ (l : List α) (i : ℕ) (a : α), l[i]? = some a → l.set i a = l := by
  intro l
  induction l with
  | nil => intro i a h; simp at h
  | cons x xs ih =>
    intro i a h
    cases i with
    | zero => simp at h; simp [h]
    | succ j => simp at h; simp [ih j a h]

/-- C9: on a list whose ids are duplicate-free, `upsert` preserves the
invariant; a present id is replaced in place (same length, all other
entries untouched) and an absent id is prepended. -/
theorem upsert_nodup_c9 (st : TransferState) (task : TransferTask) (now : ℚ)
    (hnodup : (st.tasks.map (fun t => t.id)).Nodup) :
    ((upsert st task now).tasks.map (fun t => t.id)).Nodup ∧
      (∀ i, st.tasks.findIdx? (fun item => item.id = task.id) = some i →
        (upsert st task now).tasks = st.tasks.set i task ∧
          (upsert st task now).tasks.length = st.tasks.length ∧
          (upsert st task now).tasks[i]? = some task ∧
          ∀ j, j ≠ i → (upsert st task now).tasks[j]? = st.tasks[j]?) ∧
      ((∀ t ∈ st.tasks, t.id ≠ task.id) →
        (upsert st task now).tasks = task :: st.tasks) := by
  have htasks : (upsert st task now).tasks = upsertTasks task st.tasks := rfl
  rw [htasks]
  unfold upsertTasks
  cases hfind : st.tasks.findIdx? (fun item => item.id = task.id) with
  | none =>
    have habsent : ∀ t ∈ st.tasks, (t.id = task.id) = False := by
      intro t ht
      have := List.findIdx?_eq_none_iff.mp hfind t ht
      simpa using this
    refine ⟨?_, ?_, ?_⟩
    · simp only [List.map_cons]
      refine List.nodup_cons.mpr ⟨?_, hnodup⟩
      intro hmem
      obtain ⟨t, ht, hid⟩ := List.mem_map.mp hmem
      exact absurd hid (by simpa using habsent t ht)
    · intro i hi
      simp at hi
    · intro _; rfl
  | some i =>
    obtain ⟨hlt, hp, -⟩ := List.findIdx?_eq_some_iff_getElem.mp hfind
    have hid : (st.tasks.get ⟨i, hlt⟩).id = task.id := by simpa using hp
    refine ⟨?_, ?_, ?_⟩
    · have hmapset : (st.tasks.set i task).map (fun t => t.id)
          = (st.tasks.map (fun t => t.id)).set i task.id := by
        simp [List.map_set]
      rw [hmapset, set_eq_self_of_getElem?]
      · exact hnodup
      · rw [List.getElem?_map, List.getElem?_eq_getElem hlt]
        simpa using congrArg some hid
    · intro j hj
      have hij : i = j := Option.some.inj hj
      subst hij
      refine ⟨rfl, by simp, ?_, ?_⟩
      · simp [List.getElem?_set_self hlt]
      · intro k hk
        exact List.getElem?_set_ne (Ne.symm hk)
    · intro habs
      exact absurd hid (habs (st.tasks.get ⟨i, hlt⟩) (List.get_mem _ _ hlt))

/-! ## C1: day matching follows the cron OR rule -/

theorem addMinutesF_eq : ∀ (k : ℕ) (d : DateTime), addMinutesN k d = addMinutesF k d := by
  intro k
  induction k with
  | zero => intro d; rfl
  | succ k ih =>
    intro d
    cases d
    rw [addMinutesN, addMinutesF, ih]

/-- Splitting the next-occurrence scan: scanning `a + b` steps first scans
`a` steps and, when nothing matched, continues for `b` steps from the
advanced cursor. -/
theorem nextLoop_add (c : ParsedCron) :
    ∀ (a b : ℕ) (cursor : DateTime),
      nextLoop c cursor (a + b) =
        (match nextLoop c cursor a with
         | some d => some d
         | none => nextLoop c (addMinutesN a cursor) b) := by
  intro a
  induction a with
  | zero =>
    intro b cursor
    rw [Nat.zero_add]
    rfl
  | succ a ih =>
    intro b cursor
    rw [show a + 1 + b = (a + b) + 1 by omega]
    rw [nextLoop, nextLoop]
    by_cases hm : cronMatchesDate c cursor
    · rw [if_pos hm, if_pos hm]
    · rw [if_neg hm, if_neg hm, ih b (addOneMinute cursor)]
      rfl

/-- C1: for parsed schedules, day matching is governed by the wildcard
flags — both wildcards match every day, exactly one restricted field
decides alone, and two restricted fields match when either does.  For
`0 9 1 * 1` from 2025-01-01 00:00 (a Wednesday) the first occurrence is
2025-01-01 09:00 and the next one after it is 2025-01-06 09:00 (Monday). -/
theorem cron_day_or_c1 :
    (∀ (e : String) (c : ParsedCron), parseCronExpression e = .ok c →
      ∀ d : DateTime,
        ((c.daysOfMonth.wildcard = true ∧ c.daysOfWeek.wildcard = true) →
            matchesDay c d = true) ∧
        ((c.daysOfMonth.wildcard = true ∧ c.daysOfWeek.wildcard = false) →
            matchesDay c d = matchesField c.daysOfWeek (dayOfWeek d : ℚ)) ∧
        ((c.daysOfMonth.wildcard = false ∧ c.daysOfWeek.wildcard = true) →
            matchesDay c d = matchesField c.daysOfMonth (d.day : ℚ)) ∧
        ((c.daysOfMonth.wildcard = false ∧ c.daysOfWeek.wildcard = false) →
            matchesDay c d = (matchesField c.daysOfMonth (d.day : ℚ)
              || matchesField c.daysOfWeek (dayOfWeek d : ℚ)))) ∧
      computeNextOccurrence "0 9 1 * 1" ⟨2025, 1, 1, 0, 0, 0⟩
          = .ok (some ⟨2025, 1, 1, 9, 0, 0⟩) ∧
      computeNextOccurrence "0 9 1 * 1" ⟨2025, 1, 1, 9, 0, 0⟩
          = .ok (some ⟨2025, 1, 6, 9, 0, 0⟩) := by
  refine ⟨?_, by decide, ?_⟩
  · intro e c _ d
    refine ⟨?_, ?_, ?_, ?_⟩ <;> rintro ⟨h1, h2⟩ <;> simp [matchesDay, h1, h2]
  · -- The five-day scan to 2025-01-06 09:00 is evaluated in day-long
    -- chunks to keep kernel reduction shallow.
    have hparse : parseCronExpression "0 9 1 * 1" = .ok cronW := by decide
    have hrun : computeNextOccurrence "0 9 1 * 1" ⟨2025, 1, 1, 9, 0, 0⟩
        = .ok (nextLoop cronW (addOneMinute (floorToMinute ⟨2025, 1, 1, 9, 0, 0⟩))
            (365 * 24 * 60)) := by
      unfold computeNextOccurrence
      rw [hparse]
      rfl
    have hcur : addOneMinute (floorToMinute ⟨2025, 1, 1, 9, 0, 0⟩)
        = (⟨2025, 1, 1, 9, 1, 0⟩ : DateTime) := by decide
    have e1 : nextLoop cronW ⟨2025, 1, 1, 9, 1, 0⟩ 1440 = none := by decide
    have a1 : addMinutesN 1440 (⟨2025, 1, 1, 9, 1, 0⟩ : DateTime)
        = ⟨2025, 1, 2, 9, 1, 0⟩ := by rw [addMinutesF_eq]; decide
    have e2 : nextLoop cronW ⟨2025, 1, 2, 9, 1, 0⟩ 1440 = none := by decide
    have a2 : addMinutesN 1440 (⟨2025, 1, 2, 9, 1, 0⟩ : DateTime)
        = ⟨2025, 1, 3, 9, 1, 0⟩ := by rw [addMinutesF_eq]; decide
    have e3 : nextLoop cronW ⟨2025, 1, 3, 9, 1, 0⟩ 1440 = none := by decide
    have a3 : addMinutesN 1440 (⟨2025, 1, 3, 9, 1, 0⟩ : DateTime)
        = ⟨2025, 1, 4, 9, 1, 0⟩ := by rw [addMinutesF_eq]; decide
    have e4 : nextLoop cronW ⟨2025, 1, 4, 9, 1, 0⟩ 1440 = none := by decide
    have a4 : addMinutesN 1440 (⟨2025, 1, 4, 9, 1, 0⟩ : DateTime)
        = ⟨2025, 1, 5, 9, 1, 0⟩ := by rw [addMinutesF_eq]; decide
    have e5 : nextLoop cronW ⟨2025, 1, 5, 9, 1, 0⟩ 519840
        = some ⟨2025, 1, 6, 9, 0, 0⟩ := by decide
    have hsplit : (365 * 24 * 60 : ℕ) = 1440 + (1440 + (1440 + (1440 + 519840))) := by
      norm_num
    rw [hrun, hcur, hsplit, nextLoop_add, e1]
    show Except.ok (nextLoop cronW (addMinutesN 1440 (⟨2025, 1, 1, 9, 1, 0⟩ : DateTime))
        (1440 + (1440 + (1440 + 519840)))) = _
    rw [a1, nextLoop_add, e2]
    show Except.ok (nextLoop cronW (addMinutesN 1440 (⟨2025, 1, 2, 9, 1, 0⟩ : DateTime))
        (1440 + (1440 + 519840))) = _
    rw [a2, nextLoop_add, e3]
    show Except.ok (nextLoop cronW (addMinutesN 1440 (⟨2025, 1, 3, 9, 1, 0⟩ : DateTime))
        (1440 + 519840)) = _
    rw [a3, nextLoop_add, e4]
    show Except.ok (nextLoop cronW (addMinutesN 1440 (⟨2025, 1, 4, 9, 1, 0⟩ : DateTime))
        519840) = _
    rw [a4, e5]

theorem cron_day_or_c1_witness :
    parseCronExpression "0 9 1 * 1" = .ok cronW ∧
      matchesDay cronW ⟨2025, 1, 6, 9, 0, 0⟩
        = (matchesField cronW.daysOfMonth ((6 : ℕ) : ℚ)
            || matchesField cronW.daysOfWeek ((dayOfWeek ⟨2025, 1, 6, 9, 0, 0⟩ : ℕ) : ℚ)) :=
  ⟨by decide,
    (cron_day_or_c1.1 "0 9 1 * 1" cronW (by decide) ⟨2025, 1, 6, 9, 0, 0⟩).2.2.2
      ⟨rfl, rfl⟩⟩

/-! ## C2: fire count of `*/7 * * * *` over 24 hours

The spec expects `ceil(1440/7) = 206` fires; the minute field steps within
each hour, so the code fires at minutes 0,7,…,56 of every hour:
`24 * ceil(60/7) = 216` times. -/

theorem parse7 : parseCronExpression "*/7 * * * *" = .ok cron7 := by decide

theorem cron7_minute_mem {n : ℕ} (h : n < 60) :
    matchesField cron7.minutes (n : ℚ) = decide (n % 7 = 0) := by
  interval_cases n <;> decide

theorem cron7_hour_mem {n : ℕ} (h : n < 24) :
    matchesField cron7.hours (n : ℚ) = true := by
  interval_cases n <;> decide

theorem cron7_month_mem {n : ℕ} (h1 : 1 ≤ n) (h2 : n ≤ 12) :
    matchesField cron7.months (n : ℚ) = true := by
  interval_cases n <;> decide

theorem cron7_matches {d : DateTime} (hv : ValidDT d) :
    cronMatchesDate cron7 d = decide (d.minute % 7 = 0) := by
  obtain ⟨hmin, hhour, hm1, hm2⟩ := hv
  have hday : matchesDay cron7 d = true := rfl
  unfold cronMatchesDate
  rw [cron7_minute_mem hmin, cron7_hour_mem hhour, cron7_month_mem hm1 hm2, hday]
  by_cases hmod : d.minute % 7 = 0 <;> simp [hmod]

theorem addOneMinute_minute {d : DateTime} (h : d.minute < 60) :
    (addOneMinute d).minute = (d.minute + 1) % 60 := by
  unfold addOneMinute
  split_ifs <;> simp_all <;> omega

theorem addOneMinute_valid {d : DateTime} (hv : ValidDT d) :
    ValidDT (addOneMinute d) := by
  obtain ⟨hmin, hhour, hm1, hm2⟩ := hv
  unfold ValidDT addOneMinute
  split_ifs <;> simp_all <;> omega

theorem cntP_succ (m n : ℕ) :
    cntP m (n + 1) = (if m % 60 % 7 = 0 then 1 else 0) + cntP ((m + 1) % 60) n := by
  unfold cntP
  rw [List.range_succ_eq_map, List.countP_cons, List.countP_map]
  have hcong : List.countP
        ((fun k => decide ((m + k) % 60 % 7 = 0)) ∘ Nat.succ) (List.range n)
      = List.countP (fun k => decide (((m + 1) % 60 + k) % 60 % 7 = 0)) (List.range n) := by
    refine List.countP_congr ?_
    intro k _
    have harith : m + Nat.succ k = (m + 1) + k := by omega
    simp only [Function.comp_apply, harith, Nat.mod_add_mod, decide_eq_true_eq]
  rw [hcong]
  by_cases h : m % 60 % 7 = 0
  · simp [h, Nat.add_comm]
  · simp [h]

theorem countLoop_cron7 :
    ∀ (n : ℕ) (d : DateTime), ValidDT d → countLoop cron7 d n = cntP d.minute n := by
  intro n
  induction n with
  | zero => intro d _; rfl
  | succ n ih =>
    intro d hv
    have hmin := hv.1
    rw [countLoop, cron7_matches hv, ih (addOneMinute d) (addOneMinute_valid hv),
      addOneMinute_minute hmin, cntP_succ]
    rw [Nat.mod_eq_of_lt hmin]
    by_cases hmod : d.minute % 7 = 0 <;> simp [hmod]

theorem cntP_mod (m n : ℕ) : cntP m n = cntP (m % 60) n := by
  unfold cntP
  refine List.countP_congr ?_
  intro k _
  simp only [Nat.mod_add_mod, decide_eq_true_eq]

theorem cnt60 (m : ℕ) : cntP m 60 = 9 := by
  rw [cntP_mod]
  have h : m % 60 < 60 := Nat.mod_lt _ (by omega)
  have hall : ∀ r, r < 60 → cntP r 60 = 9 := by
    intro r hr
    interval_cases r <;> decide
  exact hall _ h

theorem cntP_block (m j : ℕ) : cntP m (60 * j + 60) = cntP m (60 * j) + 9 := by
  unfold cntP
  rw [List.range_add, List.countP_append, List.countP_map]
  have hcong : List.countP
        ((fun k => decide ((m + k) % 60 % 7 = 0)) ∘ (fun k => 60 * j + k))
        (List.range 60)
      = cntP m 60 := by
    refine List.countP_congr ?_
    intro k _
    have harith : m + (60 * j + k) = (m + k) + 60 * j := by omega
    simp only [Function.comp_apply, harith, Nat.add_mul_mod_self_left,
      decide_eq_true_eq]
  rw [hcong, cnt60]

theorem cntP_1440 (m : ℕ) : cntP m 1440 = 216 := by
  have hblocks : ∀ j, cntP m (60 * j) = 9 * j := by
    intro j
    induction j with
    | zero => rfl
    | succ j ih =>
      have h60 : 60 * (j + 1) = 60 * j + 60 := by ring
      rw [h60, cntP_block, ih]
      ring
  have h1440 : (1440 : ℕ) = 60 * 24 := by norm_num
  rw [h1440, hblocks]

/-- C2 counterexample: over the 24-hour window from 2025-01-01 00:00 the
schedule `*/7 * * * *` fires 216 times, not `ceil(1440/7) = 206` as the
claim states. -/
theorem cron_step_count_c2_counterexample :
    countFires "*/7 * * * *" ⟨2025, 1, 1, 0, 0, 0⟩ 1440 = some 216 ∧
      216 ≠ (1440 + 7 - 1) / 7 := by
  constructor
  · simp only [countFires, parse7]
    rw [countLoop_cron7 1440 ⟨2025, 1, 1, 0, 0, 0⟩ (by decide), cntP_1440]
  · norm_num

/-- C2 amended: over every minute-aligned 24-hour window the parsed
schedule `*/7 * * * *` matches `24 * ceil(60/7) = 216` minute instants —
the `*/step` stepping restarts at each hour. -/
theorem cron_step_count_c2_amended (d : DateTime) (hv : ValidDT d) :
    countFires "*/7 * * * *" d 1440 = some (24 * ((60 + 7 - 1) / 7)) := by
  simp only [countFires, parse7]
  rw [countLoop_cron7 1440 d hv, cntP_1440]

theorem cron_step_count_c2_amended_witness :
    ValidDT ⟨2025, 3, 15, 12, 30, 0⟩ ∧
      countFires "*/7 * * * *" ⟨2025, 3, 15, 12, 30, 0⟩ 1440
        = some (24 * ((60 + 7 - 1) / 7)) :=
  ⟨by decide, cron_step_count_c2_amended ⟨2025, 3, 15, 12, 30, 0⟩ (by decide)⟩

/-! ## C4: the parser rejects exactly the amended enumeration -/

theorem parseAlias_eq_specResolveA (t : List Char) (dict : Option AliasDict)
    (wrap : Bool) :
    parseAlias t dict wrap =
      match specResolveA t dict wrap with
      | some v => .ok v
      | none => .error "无法解析" := by
  unfold parseAlias specResolveA parseAlias.parseAliasNum
  cases dict with
  | none =>
    cases hj : jsNumber t with
    | nan => simp
    | inf => simp
    | ninf => simp
    | num q => by_cases h7 : wrap = true ∧ q = 7 <;> simp [h7]
  | some d =>
    cases hf : List.find? (fun kv => decide (kv.1 = List.map jsToLower t)) d with
    | some kv => simp only [hf]
    | none =>
      simp only [hf]
      by_cases hp : List.map jsToLower t ∈ OBJECT_PROTOTYPE_KEYS
      · simp [hp]
      · simp only [if_neg hp]
        cases hj : jsNumber t with
        | nan => simp
        | inf => simp
        | ninf => simp
        | num q => by_cases h7 : wrap = true ∧ q = 7 <;> simp [h7]

theorem splitOnC_no_sep {sep : Char} :
    ∀ t : List Char, t.contains sep = false → splitOnC sep t = [t] := by
  intro t
  induction t with
  | nil => intro _; rfl
  | cons c cs ih =>
    intro h
    simp only [List.contains_cons, Bool.or_eq_false_iff, beq_eq_false_iff_ne,
      ne_eq] at h
    obtain ⟨hc, hcs⟩ := h
    have hcs' : cs.contains sep = false := by
      simpa [List.contains_cons] using hcs
    rw [splitOnC, if_neg (by simpa using fun he => hc he.symm), ih hcs']

theorem processItem_rejects_iff (item : List Char) (lo hi : ℚ)
    (dict : Option AliasDict) (wrap : Bool) :
    isOkE (processItem item lo hi dict wrap) = false ↔
      specItemRejectsA item lo hi dict wrap = true := by
  unfold processItem specItemRejectsA
  by_cases hstep : stepPositive (stepOf item) = false
  · simp [hstep, isOkE]
  · rw [if_neg hstep]
    have hstep' : decide (stepPositive (stepOf item) = false) = false := by
      simpa using hstep
    by_cases hrp : rangePartOf item = ['*']
    · simp [hrp, hstep', isOkE]
    · by_cases hdash : (rangePartOf item).contains '-'
      · simp only [if_neg hrp, if_pos hdash]
        cases hsplit : splitOnC '-' (rangePartOf item) with
        | nil => simp [hdash, hsplit, hrp, hstep', isOkE]
        | cons a rest =>
          cases rest with
          | nil => simp [hdash, hsplit, hrp, hstep', isOkE]
          | cons b rest2 =>
            simp only []
            rw [parseAlias_eq_specResolveA a, parseAlias_eq_specResolveA b]
            cases hra : specResolveA a dict wrap with
            | none => simp [hdash, hsplit, hra, hrp, hstep', isOkE]
            | some va =>
              cases hrb : specResolveA b dict wrap with
              | none => simp [hdash, hsplit, hra, hrb, hrp, hstep', isOkE]
              | some vb =>
                by_cases hcl : jsLtJ (clampJS vb lo hi) (clampJS va lo hi) = true
                · simp [hdash, hsplit, hra, hrb, hcl, hrp, hstep', isOkE]
                · simp [hdash, hsplit, hra, hrb, hcl, hrp, hstep', isOkE]
      · simp only [if_neg hrp, if_neg hdash]
        rw [parseAlias_eq_specResolveA (rangePartOf item)]
        cases hr : specResolveA (rangePartOf item) dict wrap with
        | none => simp [hdash, hr, hrp, hstep', isOkE]
        | some v => simp [hdash, hr, hrp, hstep', isOkE]

theorem expandItems_rejects_iff (lo hi : ℚ) (dict : Option AliasDict)
    (wrap : Bool) :
    ∀ (items : List (List Char)) (w : Bool) (acc : List JSNum),
      isOkE (expandItems lo hi dict wrap items w acc) = false ↔
        (items.any (fun item => jsTrimL item ≠ [] &&
          specItemRejectsA (jsTrimL item) lo hi dict wrap)) = true := by
  intro items
  induction items with
  | nil =>
    intro w acc
    simp [expandItems, isOkE]
  | cons it rest ih =>
    intro w acc
    rw [expandItems]
    by_cases hit : jsTrimL it = []
    · rw [if_pos hit]
      simp only [List.any_cons, hit, ne_eq, not_true_eq_false, decide_False,
        Bool.false_and, Bool.false_or]
      exact ih w acc
    · rw [if_neg hit]
      cases hp : processItem (jsTrimL it) lo hi dict wrap with
      | error msg =>
        have hspec : specItemRejectsA (jsTrimL it) lo hi dict wrap = true :=
          (processItem_rejects_iff _ _ _ _ _).mp (by rw [hp]; rfl)
        simp [List.any_cons, hit, hspec, isOkE]
      | ok v =>
        have hspec : specItemRejectsA (jsTrimL it) lo hi dict wrap = false := by
          by_contra hne
          have : isOkE (processItem (jsTrimL it) lo hi dict wrap) = false :=
            (processItem_rejects_iff _ _ _ _ _).mpr (by simpa using hne)
          rw [hp] at this
          exact absurd this (by simp [isOkE])
        simp only [List.any_cons, hspec, Bool.and_false, Bool.false_or]
        exact ih (w || v.1) (v.2.foldl setAdd acc)

theorem expandToken_rejects_iff (tok : List Char) (lo hi : ℚ)
    (dict : Option AliasDict) (wrap : Bool) :
    isOkE (expandToken tok lo hi dict wrap) = false ↔
      specFieldRejectsA tok lo hi dict wrap = true := by
  unfold expandToken specFieldRejectsA
  by_cases hempty : jsTrimL tok = []
  · simp [hempty, isOkE]
  · rw [if_neg hempty, if_neg hempty]
    by_cases hq : jsTrimL tok = ['?']
    · simp [hq, isOkE]
    · rw [if_neg hq, if_neg hq]
      cases hx : expandItems lo hi dict wrap (splitOnC ',' (jsTrimL tok)) false [] with
      | error msg =>
        have hex := (expandItems_rejects_iff lo hi dict wrap _ false []).mp
          (by rw [hx]; rfl)
        simp [isOkE]
        simpa using hex
      | ok v =>
        have hnone : ((splitOnC ',' (jsTrimL tok)).any
            (fun item => jsTrimL item ≠ [] &&
              specItemRejectsA (jsTrimL item) lo hi dict wrap)) = false := by
          by_contra hne
          have : isOkE (expandItems lo hi dict wrap (splitOnC ',' (jsTrimL tok))
              false []) = false :=
            (expandItems_rejects_iff lo hi dict wrap _ false []).mpr
              (by simpa using hne)
          rw [hx] at this
          exact absurd this (by simp [isOkE])
        simp [isOkE]
        simpa using hnone

/-- C4 (amended): the parser rejects exactly when the expression does not
split into 5 fields, a field is empty, a step is not a positive finite
number, a range descends after clamping, or a token is neither a
recognized alias, nor — in the aliased month/day-of-week fields — an
inherited `Object.prototype` member name (which the `in` test of
`parseAlias` finds through the prototype chain and accepts, its value
clamping to `NaN`), nor a number; out-of-range numeric values clamp
instead of rejecting, `?` is the full wildcard, and day-of-week 7
normalizes to 0.  The original claim, which omitted the
prototype-chain acceptance, is refuted by
`parse_reject_iff_c4_counterexample`. -/
theorem parse_reject_iff_c4_amended :
    (∀ e : String, isOkE (parseCronExpression e) = false ↔ specRejectsA e = true) ∧
      (∀ e : String, isCronExpressionValid e = isOkE (parseCronExpression e)) ∧
      (∀ (lo hi : ℚ) (dict : Option AliasDict) (wrap : Bool),
        expandToken ['?'] lo hi dict wrap
          = .ok (true, (rangeQ lo hi 1).map JSNum.num)) ∧
      expandToken ['7'] 0 6 (some WEEK_ALIASES) true = .ok (false, [JSNum.num 0]) ∧
      (∀ (t : List Char) (lo hi : ℚ) (dict : Option AliasDict) (wrap : Bool) (q : ℚ),
        t ≠ [] → jsTrimL t = t → t ≠ ['*'] → t ≠ ['?'] →
        t.contains ',' = false → t.contains '/' = false → t.contains '-' = false →
        specResolveA t dict wrap = some (.num q) →
        expandToken t lo hi dict wrap
          = .ok (false, [JSNum.num (min hi (max lo q))])) := by
  refine ⟨?_, ?_, ?_, by decide, ?_⟩
  · intro e
    simp only [parseCronExpression, specRejectsA]
    generalize splitOnC ' ' (normalizeL e.data) = parts
    rcases parts with _ | ⟨t1, _ | ⟨t2, _ | ⟨t3, _ | ⟨t4, _ | ⟨t5, _ | ⟨t6, r⟩⟩⟩⟩⟩⟩
    · simp [isOkE]
    · simp [isOkE]
    · simp [isOkE]
    · simp [isOkE]
    · simp [isOkE]
    ·
      cases h1 : expandToken t1 0 59 none false with
      | error m =>
        have := (expandToken_rejects_iff t1 0 59 none false).mp (by rw [h1]; rfl)
        simp [h1, this, isOkE]
      | ok v1 =>
        have hs1 : specFieldRejectsA t1 0 59 none false = false := by
          by_contra hne
          have hx := (expandToken_rejects_iff t1 0 59 none false).mpr
            (by simpa using hne)
          rw [h1] at hx
          exact absurd hx (by simp [isOkE])
        cases h2 : expandToken t2 0 23 none false with
        | error m =>
          have := (expandToken_rejects_iff t2 0 23 none false).mp (by rw [h2]; rfl)
          simp [h1, h2, this, isOkE]
        | ok v2 =>
          have hs2 : specFieldRejectsA t2 0 23 none false = false := by
            by_contra hne
            have hx := (expandToken_rejects_iff t2 0 23 none false).mpr
              (by simpa using hne)
            rw [h2] at hx
            exact absurd hx (by simp [isOkE])
          cases h3 : expandToken t3 1 31 none false with
          | error m =>
            have := (expandToken_rejects_iff t3 1 31 none false).mp (by rw [h3]; rfl)
            simp [h1, h2, h3, this, isOkE]
          | ok v3 =>
            have hs3 : specFieldRejectsA t3 1 31 none false = false := by
              by_contra hne
              have hx := (expandToken_rejects_iff t3 1 31 none false).mpr
                (by simpa using hne)
              rw [h3] at hx
              exact absurd hx (by simp [isOkE])
            cases h4 : expandToken t4 1 12 (some MONTH_ALIASES) false with
            | error m =>
              have := (expandToken_rejects_iff t4 1 12 (some MONTH_ALIASES)
                false).mp (by rw [h4]; rfl)
              simp [h1, h2, h3, h4, this, isOkE]
            | ok v4 =>
              have hs4 : specFieldRejectsA t4 1 12 (some MONTH_ALIASES) false
                  = false := by
                by_contra hne
                have hx := (expandToken_rejects_iff t4 1 12 (some MONTH_ALIASES)
                  false).mpr (by simpa using hne)
                rw [h4] at hx
                exact absurd hx (by simp [isOkE])
              cases h5 : expandToken t5 0 6 (some WEEK_ALIASES) true with
              | error m =>
                have := (expandToken_rejects_iff t5 0 6 (some WEEK_ALIASES)
                  true).mp (by rw [h5]; rfl)
                simp [h1, h2, h3, h4, h5, this, isOkE]
              | ok v5 =>
                have hs5 : specFieldRejectsA t5 0 6 (some WEEK_ALIASES) true
                    = false := by
                  by_contra hne
                  have hx := (expandToken_rejects_iff t5 0 6 (some WEEK_ALIASES)
                    true).mpr (by simpa using hne)
                  rw [h5] at hx
                  exact absurd hx (by simp [isOkE])
                simp [h1, h2, h3, h4, h5, hs1, hs2, hs3, hs4, hs5, isOkE]
    · simp [isOkE]
  · intro e
    unfold isCronExpressionValid
    cases h : parseCronExpression e <;> simp [isOkE]
  · intro lo hi dict wrap
    rfl
  · intro t lo hi dict wrap q hne htrim hstar hq hcomma hslash hdash hres
    have hpi : processItem t lo hi dict wrap
        = .ok (false, [JSNum.num (min hi (max lo q))]) := by
      unfold processItem
      have hstep : stepOf t = .num 1 := by
        unfold stepOf
        rw [splitOnC_no_sep t hslash]
        rfl
      rw [hstep]
      rw [if_neg (by decide)]
      have hrp : rangePartOf t = t := by
        unfold rangePartOf
        rw [splitOnC_no_sep t hslash]
        exact htrim
      rw [hrp, if_neg hstar, if_neg (by simpa using hdash)]
      rw [parseAlias_eq_specResolveA, hres]
      rfl
    unfold expandToken
    rw [htrim, if_neg hne, if_neg hq, splitOnC_no_sep t hcomma]
    rw [expandItems, htrim, if_neg hne, hpi]
    simp [expandItems, setAdd, List.insertionSort, List.orderedInsert]

theorem parse_reject_iff_c4_witness :
    (jsTrimL ['6', '1'] = ['6', '1'] ∧
        specResolveA ['6', '1'] none false = some (.num 61)) ∧
      expandToken ['6', '1'] 0 59 none false
        = .ok (false, [JSNum.num (min 59 (max 0 61))]) :=
  ⟨⟨by decide, by decide⟩,
    parse_reject_iff_c4_amended.2.2.2.2 ['6', '1'] 0 59 none false 61 (by decide)
      (by decide) (by decide) (by decide) (by decide) (by decide) (by decide)
      (by decide)⟩

/-- C4 counterexample to the original claim: the month token `constructor`
is neither a recognized alias nor a number (`Number('constructor')` is
`NaN`), so the claim's enumeration demands rejection — yet the parser
ACCEPTS `0 0 * constructor *`, because `'constructor' in MONTH_ALIASES`
finds the inherited `Object.prototype.constructor` through the prototype
chain, and the clamp of that non-number silently puts `NaN` in the month
value set.  The claim's "exactly when" is therefore false of the
program. -/
theorem parse_reject_iff_c4_counterexample :
    ¬(isOkE (parseCronExpression "0 0 * constructor *") = false ↔
        specRejects "0 0 * constructor *" = true) := by
  decide

/-! ## C5: parse-then-stringify is the identity on normalized expressions -/

theorem jsIsSpace_space : jsIsSpace ' ' = true := by decide

theorem collapseAux_idem :
    ∀ (s : List Char) (b : Bool), collapseAux b (collapseAux b s) = collapseAux b s := by
  intro s
  induction s with
  | nil => intro b; rfl
  | cons c cs ih =>
    intro b
    by_cases hc : jsIsSpace c
    · cases b with
      | true => simp only [collapseAux, hc, if_pos, if_true]; exact ih true
      | false =>
        simp only [collapseAux, hc, if_pos, if_true, if_false, jsIsSpace_space]
        exact congrArg (List.cons ' ') (ih true)
    · simp only [collapseAux, hc, if_neg, if_false, Bool.false_eq_true]
      exact congrArg (List.cons c) (ih false)

theorem collapseAux_head_not (t : List Char)
    (h : ∀ d, t.head? = some d → jsIsSpace d = false) :
    ∀ c, (collapseAux false t).head? = some c → jsIsSpace c = false := by
  cases t with
  | nil => intro c hc; cases hc
  | cons d ds =>
    have hd : jsIsSpace d = false := h d rfl
    intro c hc
    simp only [collapseAux, hd, Bool.false_eq_true, if_false, List.head?_cons] at hc
    cases hc
    exact hd

theorem getLast?_cons_ne {α : Type} (x : α) (l : List α) (h : l ≠ []) :
    (x :: l).getLast? = l.getLast? := by
  cases l with
  | nil => exact absurd rfl h
  | cons y ys => exact List.getLast?_cons_cons

theorem collapseAux_getLast :
    ∀ (t : List Char), t ≠ [] →
      (∀ d, t.getLast? = some d → jsIsSpace d = false) →
      ∀ b, collapseAux b t ≠ [] ∧
        ∀ c, (collapseAux b t).getLast? = some c → jsIsSpace c = false := by
  intro t
  induction t with
  | nil => intro h; exact absurd rfl h
  | cons c cs ih =>
    intro _ hlast b
    cases hcs : cs with
    | nil =>
      subst hcs
      have hc : jsIsSpace c = false := hlast c rfl
      constructor
      · simp [collapseAux, hc]
      · intro d hd
        simp only [collapseAux, hc, Bool.false_eq_true, if_false] at hd
        simp only [List.getLast?_singleton] at hd
        cases hd
        exact hc
    | cons e es =>
      have hne : cs ≠ [] := by rw [hcs]; exact List.cons_ne_nil _ _
      rw [← hcs]
      have hlast' : ∀ d, cs.getLast? = some d → jsIsSpace d = false := by
        intro d hd
        exact hlast d ((getLast?_cons_ne c cs hne).symm ▸ hd)
      by_cases hc : jsIsSpace c
      · cases b with
        | true =>
          have hcoll : collapseAux true (c :: cs) = collapseAux true cs := by
            simp [collapseAux, hc]
          rw [hcoll]
          exact ih hne hlast' true
        | false =>
          have hcoll : collapseAux false (c :: cs) = ' ' :: collapseAux true cs := by
            simp [collapseAux, hc]
          rw [hcoll]
          obtain ⟨hne2, hl2⟩ := ih hne hlast' true
          refine ⟨List.cons_ne_nil _ _, ?_⟩
          intro d hd
          rw [getLast?_cons_ne ' ' _ hne2] at hd
          exact hl2 d hd
      · have hcoll : collapseAux b (c :: cs) = c :: collapseAux false cs := by
          simp [collapseAux, hc]
        rw [hcoll]
        obtain ⟨hne2, hl2⟩ := ih hne hlast' false
        refine ⟨List.cons_ne_nil _ _, ?_⟩
        intro d hd
        rw [getLast?_cons_ne c _ hne2] at hd
        exact hl2 d hd

theorem dropWhile_head?_not {α : Type} (p : α → Bool) :
    ∀ (l : List α) (c : α), (l.dropWhile p).head? = some c → p c = false := by
  intro l
  induction l with
  | nil => intro c hc; cases hc
  | cons a as ih =>
    intro c hc
    by_cases ha : p a
    · rw [List.dropWhile_cons_of_pos ha] at hc
      exact ih c hc
    · rw [List.dropWhile_cons_of_neg ha] at hc
      simp only [List.head?_cons] at hc
      cases hc
      simpa using ha

theorem dropWhile_noop {α : Type} (p : α → Bool) (l : List α)
    (h : ∀ c, l.head? = some c → p c = false) : l.dropWhile p = l := by
  cases l with
  | nil => rfl
  | cons a as =>
    have := h a rfl
    exact List.dropWhile_cons_of_neg (by simp [this])

theorem dropWhile_getLast? {α : Type} (p : α → Bool) :
    ∀ l : List α, l.dropWhile p ≠ [] → (l.dropWhile p).getLast? = l.getLast? := by
  intro l
  induction l with
  | nil => intro h; exact absurd rfl h
  | cons a as ih =>
    intro h
    by_cases ha : p a
    · rw [List.dropWhile_cons_of_pos ha] at h ⊢
      have hne : as ≠ [] := by
        intro hnil
        rw [hnil] at h
        exact h rfl
      rw [ih h, getLast?_cons_ne a as hne]
    · rw [List.dropWhile_cons_of_neg ha]

theorem jsTrimL_head (s : List Char) :
    ∀ c, (jsTrimL s).head? = some c → jsIsSpace c = false := by
  intro c hc
  unfold jsTrimL at hc
  rw [List.head?_reverse] at hc
  have hne : ((s.dropWhile jsIsSpace).reverse).dropWhile jsIsSpace ≠ [] := by
    intro hnil
    rw [hnil] at hc
    cases hc
  rw [dropWhile_getLast? jsIsSpace _ hne, List.getLast?_reverse] at hc
  exact dropWhile_head?_not jsIsSpace _ c hc

theorem jsTrimL_getLast (s : List Char) :
    ∀ c, (jsTrimL s).getLast? = some c → jsIsSpace c = false := by
  intro c hc
  unfold jsTrimL at hc
  rw [List.getLast?_reverse] at hc
  exact dropWhile_head?_not jsIsSpace _ c hc

theorem jsTrimL_noop (u : List Char)
    (hhead : ∀ c, u.head? = some c → jsIsSpace c = false)
    (hlast : ∀ c, u.getLast? = some c → jsIsSpace c = false) :
    jsTrimL u = u := by
  unfold jsTrimL
  rw [dropWhile_noop jsIsSpace u hhead]
  rw [dropWhile_noop jsIsSpace u.reverse (by
    intro c hc
    rw [List.head?_reverse] at hc
    exact hlast c hc)]
  exact List.reverse_reverse u

/-- Idempotence of `trim` + whitespace collapsing on character lists. -/
theorem normalizeL_idem (s : List Char) : normalizeL (normalizeL s) = normalizeL s := by
  unfold normalizeL collapseL
  by_cases ht : jsTrimL s = []
  · rw [ht]
    show collapseAux false (jsTrimL []) = _
    rfl
  · obtain ⟨hne, hlast⟩ :=
      collapseAux_getLast (jsTrimL s) ht (jsTrimL_getLast s) false
    have hhead := collapseAux_head_not (jsTrimL s) (jsTrimL_head s)
    rw [jsTrimL_noop _ hhead hlast]
    exact collapseAux_idem (jsTrimL s) false

/-- Parsing stores the normalized text in `source`. -/
theorem parse_source (e : String) (c : ParsedCron)
    (h : parseCronExpression e = .ok c) :
    c.source = normalizeCronExpression e := by
  simp only [parseCronExpression] at h
  generalize splitOnC ' ' (normalizeL e.data) = parts at h
  split at h
  · split at h
    · cases h
    · split at h
      · cases h
      · split at h
        · cases h
        · split at h
          · cases h
          · split at h
            · cases h
            · cases h
              rfl
  · cases h

/-- C5: parsing then stringifying a normalized expression is the identity,
and `normalizeCronExpression` is idempotent on all strings. -/
theorem normalize_roundtrip_c5 :
    (∀ (e : String) (c : ParsedCron), e = normalizeCronExpression e →
        parseCronExpression e = .ok c → c.source = e) ∧
      ∀ s : String,
        normalizeCronExpression (normalizeCronExpression s)
          = normalizeCronExpression s := by
  constructor
  · intro e c hnorm hparse
    rw [parse_source e c hparse, ← hnorm]
  · intro s
    show (⟨normalizeL (String.data ⟨normalizeL s.data⟩)⟩ : String) = ⟨normalizeL s.data⟩
    exact congrArg String.mk (normalizeL_idem s.data)

theorem normalize_roundtrip_c5_witness :
    ("0 9 1 * 1" = normalizeCronExpression "0 9 1 * 1" ∧
        parseCronExpression "0 9 1 * 1" = .ok cronW) ∧
      cronW.source = "0 9 1 * 1" :=
  ⟨⟨by decide, by decide⟩,
    normalize_roundtrip_c5.1 "0 9 1 * 1" cronW (by decide) (by decide)⟩

/-! ## C3: `computeNextOccurrence` is a first-match 1-minute scan -/

theorem nextLoop_some_iff (c : ParsedCron) :
    ∀ (fuel : ℕ) (cursor d : DateTime),
      nextLoop c cursor fuel = some d ↔
        ∃ k, k < fuel ∧ d = addMinutesN k cursor ∧
          cronMatchesDate c (addMinutesN k cursor) = true ∧
          ∀ j, j < k → cronMatchesDate c (addMinutesN j cursor) = false := by
  intro fuel
  induction fuel with
  | zero =>
    intro cursor d
    simp [nextLoop]
  | succ fuel ih =>
    intro cursor d
    rw [nextLoop]
    by_cases hm : cronMatchesDate c cursor
    · rw [if_pos hm]
      constructor
      · intro h
        cases h
        exact ⟨0, Nat.succ_pos _, rfl, hm, fun j hj => absurd hj (Nat.not_lt_zero j)⟩
      · rintro ⟨k, hk, hd, hmk, hlt⟩
        cases k with
        | zero => rw [hd, addMinutesN]
        | succ k => exact absurd hm (by simpa using hlt 0 (Nat.succ_pos k))
    · rw [if_neg hm, ih (addOneMinute cursor) d]
      constructor
      · rintro ⟨k, hk, hd, hmk, hlt⟩
        refine ⟨k + 1, Nat.succ_lt_succ hk, hd, hmk, ?_⟩
        intro j hj
        cases j with
        | zero => simpa using (Bool.not_eq_true _).mp hm
        | succ j => exact hlt j (Nat.lt_of_succ_lt_succ hj)
      · rintro ⟨k, hk, hd, hmk, hlt⟩
        cases k with
        | zero => exact absurd (by simpa using hmk) hm
        | succ k =>
          exact ⟨k, Nat.lt_of_succ_lt_succ hk, hd, hmk,
            fun j hj => hlt (j + 1) (Nat.succ_lt_succ hj)⟩

theorem nextLoop_none_iff (c : ParsedCron) :
    ∀ (fuel : ℕ) (cursor : DateTime),
      nextLoop c cursor fuel = none ↔
        ∀ k, k < fuel → cronMatchesDate c (addMinutesN k cursor) = false := by
  intro fuel
  induction fuel with
  | zero =>
    intro cursor
    simp [nextLoop]
  | succ fuel ih =>
    intro cursor
    rw [nextLoop]
    by_cases hm : cronMatchesDate c cursor
    · rw [if_pos hm]
      constructor
      · intro h; cases h
      · intro h
        have h0 := h 0 (Nat.succ_pos _)
        rw [addMinutesN] at h0
        simp [hm] at h0
    · rw [if_neg hm, ih (addOneMinute cursor)]
      constructor
      · intro h k hk
        cases k with
        | zero => simpa using (Bool.not_eq_true _).mp hm
        | succ k => exact h k (Nat.lt_of_succ_lt_succ hk)
      · intro h k hk
        exact h (k + 1) (Nat.succ_lt_succ hk)

/-- C3: for every parseable expression and starting instant,
`computeNextOccurrence` returns exactly the first instant among the
365·24·60 one-minute steps from `floor(from, minute) + 1 min` whose
minute, hour, month and day fields all match, and `null` iff no step
within that one-year horizon matches. -/
theorem computeNextOccurrence_spec_c3 (e : String) (c : ParsedCron) (f : DateTime)
    (h : parseCronExpression e = .ok c) :
    (∀ d : DateTime,
        computeNextOccurrence e f = .ok (some d) ↔
          ∃ k, k < 365 * 24 * 60 ∧
            d = addMinutesN k (addOneMinute (floorToMinute f)) ∧
            cronMatchesDate c (addMinutesN k (addOneMinute (floorToMinute f))) = true ∧
            ∀ j, j < k →
              cronMatchesDate c (addMinutesN j (addOneMinute (floorToMinute f))) = false) ∧
      (computeNextOccurrence e f = .ok none ↔
        ∀ k, k < 365 * 24 * 60 →
          cronMatchesDate c (addMinutesN k (addOneMinute (floorToMinute f))) = false) := by
  have hrun : computeNextOccurrence e f
      = .ok (nextLoop c (addOneMinute (floorToMinute f)) (365 * 24 * 60)) := by
    unfold computeNextOccurrence
    rw [h]
    rfl
  constructor
  · intro d
    rw [hrun]
    simp only [Except.ok.injEq]
    rw [← nextLoop_some_iff c (365 * 24 * 60) (addOneMinute (floorToMinute f)) d]
  · rw [hrun]
    simp only [Except.ok.injEq]
    rw [← nextLoop_none_iff c (365 * 24 * 60) (addOneMinute (floorToMinute f))]

theorem computeNextOccurrence_spec_c3_witness :
    parseCronExpression "0 9 1 * 1" = .ok cronW ∧
      (computeNextOccurrence "0 9 1 * 1" ⟨2025, 1, 1, 0, 0, 0⟩
          = .ok (some ⟨2025, 1, 1, 9, 0, 0⟩) ↔
        ∃ k, k < 365 * 24 * 60 ∧
          (⟨2025, 1, 1, 9, 0, 0⟩ : DateTime)
              = addMinutesN k (addOneMinute (floorToMinute ⟨2025, 1, 1, 0, 0, 0⟩)) ∧
          cronMatchesDate cronW
              (addMinutesN k (addOneMinute (floorToMinute ⟨2025, 1, 1, 0, 0, 0⟩))) = true ∧
          ∀ j, j < k →
            cronMatchesDate cronW
              (addMinutesN j (addOneMinute (floorToMinute ⟨2025, 1, 1, 0, 0, 0⟩))) = false) :=
  ⟨by decide,
    (computeNextOccurrence_spec_c3 "0 9 1 * 1" cronW ⟨2025, 1, 1, 0, 0, 0⟩
      (by decide)).1 ⟨2025, 1, 1, 9, 0, 0⟩⟩

/-! ## C6: `createTask` rejects invalid schedules without side effects -/

/-- C6: with an invalid schedule `createTask` throws, does not invoke the
backend command and leaves the task list unchanged; with a valid schedule it
invokes the backend and prepends the normalized created task. -/
theorem createTask_validation_c6 (payload : TaskPayload) (backend : BackendTask)
    (tasks : List SyncTask) :
    (isCronExpressionValid payload.schedule = false →
        (createTask payload backend tasks).result = .error "Cron 表达式无效" ∧
        (createTask payload backend tasks).tasks = tasks ∧
        (createTask payload backend tasks).invoked = false) ∧
      (isCronExpressionValid payload.schedule = true →
        (createTask payload backend tasks).result
            = .ok (normalizeTask (fromBackendTask backend)) ∧
        (createTask payload backend tasks).tasks
            = normalizeTask (fromBackendTask backend) :: tasks ∧
        (createTask payload backend tasks).invoked = true) := by
  constructor
  · intro h
    simp [createTask, validateCron, h]
  · intro h
    simp [createTask, validateCron, h]

theorem createTask_validation_c6_witness :
    (isCronExpressionValid "not a cron" = false ∧
      (createTask ⟨"n", .bidirectional, "not a cron"⟩ backendC6 []).tasks = ([] : List SyncTask) ∧
      (createTask ⟨"n", .bidirectional, "not a cron"⟩ backendC6 []).invoked = false) ∧
    (isCronExpressionValid "0 9 * * *" = true ∧
      (createTask ⟨"n", .bidirectional, "0 9 * * *"⟩ backendC6 []).invoked = true) := by
  have hbad := (createTask_validation_c6 ⟨"n", .bidirectional, "not a cron"⟩
    backendC6 []).1 (by decide)
  have hgood := (createTask_validation_c6 ⟨"n", .bidirectional, "0 9 * * *"⟩
    backendC6 []).2 (by decide)
  exact ⟨⟨by decide, hbad.2.1, hbad.2.2⟩, ⟨by decide, hgood.2.2⟩⟩

/-! ## C7: `reorder` rewrites orders and sorts ascending -/

/-- C7: after `reorder`, the store holds the same tenants (as a
permutation of the pointwise-updated list), each tenant named in the
request carries the requested order with all other fields unchanged,
unmentioned tenants keep their order, and the result is sorted ascending
by `order`. -/
theorem reorder_spec_c7 (items : List ReorderItem) (tenants : List TenantInstance) :
    List.Perm (reorderLocal items tenants) (tenants.map (applyOrder items)) ∧
      List.Sorted (fun a b : TenantInstance => a.order ≤ b.order)
        (reorderLocal items tenants) ∧
      (∀ (t : TenantInstance) (o : ℚ), orderLookup items t.id = some o →
        applyOrder items t = { t with order := o }) ∧
      (∀ t : TenantInstance, orderLookup items t.id = none →
        applyOrder items t = t) := by
  refine ⟨List.perm_insertionSort _ _, List.sorted_insertionSort _ _, ?_, ?_⟩
  · intro t o h
    simp [applyOrder, h]
  · intro t h
    simp [applyOrder, h]

theorem reorder_spec_c7_witness :
    orderLookup itemsC7 tenant0.id = some 2 ∧
      applyOrder itemsC7 tenant0 = { tenant0 with order := 2 } :=
  ⟨by decide, (reorder_spec_c7 itemsC7 [tenant0]).2.2.1 tenant0 2 (by decide)⟩

/-! ## C8: `computeSpeed` records Δbytes / Δseconds, never negative -/

/-- C8: with a previous sample, a `running` status and a nonnegative byte
delta the recorded speed is `Δtransferred / Δwalltime` (elapsed seconds
floored at 1 ms); in every other case it is `0`; it is never negative. -/
theorem computeSpeed_spec_c8 (st : TransferState) (task : TransferTask) (now : ℚ) :
    (∀ prev, st.metricMap task.id = some prev → task.status = .running →
        0 ≤ task.transferred - prev.bytes →
        (computeSpeed st task now).speeds task.id
          = (task.transferred - prev.bytes) / max ((now - prev.time) / 1000) (1 / 1000)) ∧
      (st.metricMap task.id = none → (computeSpeed st task now).speeds task.id = 0) ∧
      (task.status ≠ .running → (computeSpeed st task now).speeds task.id = 0) ∧
      (∀ prev, st.metricMap task.id = some prev → task.transferred - prev.bytes < 0 →
        (computeSpeed st task now).speeds task.id = 0) ∧
      0 ≤ (computeSpeed st task now).speeds task.id := by
  have hsel : ∀ speed : ℚ,
      ((fun i => if i = task.id then speed else st.speeds i) task.id) = speed := by
    intro speed; simp
  have hmk : mkRat 1 1000 = (1 : ℚ) / 1000 := by
    rw [Rat.mkRat_eq_div]; norm_num
  simp only [computeSpeed]
  cases hprev : st.metricMap task.id with
  | none =>
    simp only [hsel]
    refine ⟨?_, ?_, ?_, ?_, le_refl 0⟩ <;> intros <;> simp_all
  | some prev =>
    by_cases hrun : task.status = TransferStatus.running
    · simp only [hrun, if_pos rfl, hsel, qSub_eq, qDiv_eq, hmk]
      by_cases hdelta : 0 ≤ task.transferred - prev.bytes
      · rw [if_pos hdelta]
        refine ⟨?_, ?_, ?_, ?_, ?_⟩
        · intro p hp _ _
          cases Option.some.inj hp
          rfl
        · intro h; cases h
        · intro h; exact absurd rfl h
        · intro p hp hneg
          cases Option.some.inj hp
          exact absurd hdelta (not_le.mpr hneg)
        · refine div_nonneg hdelta (le_trans ?_ (le_max_right _ _))
          norm_num
      · rw [if_neg hdelta]
        refine ⟨?_, ?_, ?_, ?_, le_refl 0⟩
        · intro p hp _ hge
          cases Option.some.inj hp
          exact absurd hge hdelta
        · intro h; cases h
        · intro h; exact absurd rfl h
        · intro _ _ _; rfl
    · simp only [if_neg hrun, hsel]
      refine ⟨?_, ?_, ?_, ?_, le_refl 0⟩
      · intro p hp hr _
        exact absurd hr hrun
      · intro h; cases h
      · intro _; rfl
      · intro _ _ _; rfl

theorem computeSpeed_spec_c8_witness :
    stC8.metricMap taskC8.id = some ⟨5, 1000⟩ ∧
      taskC8.status = .running ∧
      (computeSpeed stC8 taskC8 2000).speeds taskC8.id
        = (taskC8.transferred - 5) / max (((2000 : ℚ) - 1000) / 1000) (1 / 1000) := by
  refine ⟨rfl, rfl, ?_⟩
  exact (computeSpeed_spec_c8 stC8 taskC8 2000).1 ⟨5, 1000⟩ rfl rfl (by simp [taskC8, taskA])

theorem upsert_nodup_c9_witness :
    ((stC9.tasks.map (fun t => t.id)).Nodup) ∧
      ((upsert stC9 { taskB with transferred := 5 } 0).tasks.map
          (fun t => t.id)).Nodup ∧
      (upsert stC9 { taskB with transferred := 5 } 0).tasks
          = stC9.tasks.set 1 { taskB with transferred := 5 } := by
  have h := upsert_nodup_c9 stC9 { taskB with transferred := 5 } 0 (by decide)
  refine ⟨by decide, h.1, ?_⟩
  exact (h.2.1 1 (by decide)).1

end FeiSync
